import Mathlib

/-!
# se-solver: bounded parameter queue, producer and equation solver

A shallow embedding of `parameter_queue.{h,cpp}`, `producer.cpp`, the solver,
the output and the loop body of `consumer.cpp`, and the thread structure of
`main.cpp`, followed by the properties proved about them.

Conventions of the embedding

* `int64_t` values are `Int`; the result of every 64-bit signed operation is
  reduced by `wrap64` (two's complement, modulo `2^64`).
* A call that waits on a condition variable is an atomic step that is either
  enabled (returns `some`) or blocked (returns `none`): the wait predicate is
  evaluated and the body run under `m_queue_mtx`.
* Output streams are lists of lines.
* The pipeline of `main` is a transition system whose steps are the queue calls
  of the threads; a second, finer system splits `pop` and `setDone` at the
  points where another thread can run.
-/

namespace SE

/-! ## parameter_queue.h / parameter_queue.cpp -/

/-- Three equation parameters `[a, b, c]`, the `std::array<int64_t, 3>` of the source. -/
structure EquationParams where
  a : Int
  b : Int
  c : Int
deriving DecidableEq, Repr

/-- Read access `params[i]` for `i < 3`. -/
def EquationParams.get (p : EquationParams) (i : Nat) : Int :=
  match i with
  | 0 => p.a
  | 1 => p.b
  | _ => p.c

/-- Write access `params->at(i) = v` for `i < 3`. -/
def EquationParams.set (p : EquationParams) (i : Nat) (v : Int) : EquationParams :=
  match i with
  | 0 => { p with a := v }
  | 1 => { p with b := v }
  | _ => { p with c := v }

/-- The data members of `ParameterQueue` (mutex and condition variables are
represented by the atomicity of the operations below). -/
structure ParameterQueue where
  m_max_queue_size : Nat
  m_queue : List EquationParams
  m_done_flag : Bool
deriving DecidableEq, Repr

/-- Constructor `ParameterQueue(max_queue_size)`: empty queue, flag clear. -/
def ParameterQueue.new (max_queue_size : Nat) : ParameterQueue :=
  { m_max_queue_size := max_queue_size, m_queue := [], m_done_flag := false }

namespace ParameterQueue

/-- The wait predicate of `push`: `m_queue.size() < m_max_queue_size`. -/
def pushReady (q : ParameterQueue) : Bool :=
  decide (q.m_queue.length < q.m_max_queue_size)

/-- Method `push(params)`: `none` while the wait predicate is false (the caller
stays blocked on `m_not_full`), otherwise the queue with `params` appended. -/
def push (q : ParameterQueue) (params : EquationParams) : Option ParameterQueue :=
  if q.pushReady then
    some { q with m_queue := q.m_queue ++ [params] }
  else
    none

/-- Method `setDone()`: stores `true` into the flag (and notifies all waiters). -/
def setDone (q : ParameterQueue) : ParameterQueue :=
  { q with m_done_flag := true }

/-- The wait predicate of `pop`: `!m_queue.empty() || m_done_flag`. -/
def popReady (q : ParameterQueue) : Bool :=
  !q.m_queue.isEmpty || q.m_done_flag

/-- Method `pop(&params)`: `none` while the wait predicate is false (the caller
stays blocked on `m_not_empty`); otherwise the returned `bool`, the value of
the output parameter after the call and the queue after the call. -/
def pop (q : ParameterQueue) (params : EquationParams) :
    Option (Bool × EquationParams × ParameterQueue) :=
  if q.popReady then
    if q.m_done_flag && q.m_queue.isEmpty then
      some (false, params, q)
    else
      match q.m_queue with
      | front :: rest => some (true, front, { q with m_queue := rest })
      | [] => none -- not reached: an empty queue passes the wait only with the flag set
  else
    none

end ParameterQueue

/-! ### Atomic steps of the threads that share one queue -/

/-- One atomic queue call attempted by some thread. `pop` names the consumer
that attempts it. -/
inductive Op where
  | push (params : EquationParams)
  | pop (consumer : Nat)
  | setDone
deriving DecidableEq, Repr

/-- The queue together with a record of what has happened to it: the items whose
`push` completed, the items handed out by `pop` (with the consumer that got
each), and the consumers whose `pop` returned `false`. -/
structure Sys where
  queue : ParameterQueue
  pushed : List EquationParams
  delivered : List (Nat × EquationParams)
  refused : List Nat
deriving DecidableEq, Repr

/-- The system around a freshly constructed queue. -/
def Sys.init (max_queue_size : Nat) : Sys :=
  { queue := ParameterQueue.new max_queue_size, pushed := [], delivered := [], refused := [] }

/-- One attempted call. A blocked call changes nothing: its thread keeps waiting
and the call may be attempted again later. -/
def Sys.step (s : Sys) : Op → Sys
  | Op.push params =>
    match s.queue.push params with
    | some q => { s with queue := q, pushed := s.pushed ++ [params] }
    | none => s
  | Op.pop consumer =>
    match s.queue.pop (EquationParams.mk 0 0 0) with
    | some (true, item, q) => { s with queue := q, delivered := s.delivered ++ [(consumer, item)] }
    | some (false, _, q) => { s with queue := q, refused := s.refused ++ [consumer] }
    | none => s
  | Op.setDone => { s with queue := s.queue.setDone }

/-- A finite schedule of attempted calls, run from left to right. -/
def Sys.run (s : Sys) (ops : List Op) : Sys :=
  ops.foldl Sys.step s

/-- The record kept by `Sys` agrees with the queue: delivered items followed by
pending items are the pushed items. -/
def Sys.Conserved (s : Sys) : Prop :=
  s.delivered.map Prod.snd ++ s.queue.m_queue = s.pushed

/-- The consumers that attempt a pop in a schedule, in order. -/
def poppers : List Op → List Nat
  | [] => []
  | Op.pop c :: ops => c :: poppers ops
  | _ :: ops => poppers ops

/-! ## producer.cpp -/

/-- The `isspace` test of the "C" locale, used by `strtoll` to skip leading
white space: space, and the controls from horizontal tab to carriage return. -/
def isspace (c : Char) : Bool :=
  c.toNat == 32 || (decide (9 ≤ c.toNat) && decide (c.toNat ≤ 13))

/-- Outcome of `std::stoll(str, &pos)`: one of the two exceptions, or the value
together with the number of characters processed. -/
inductive StollResult where
  | invalid_argument
  | out_of_range
  | ok (value : Int) (final_pos : Nat)
deriving DecidableEq, Repr

/-- The optional sign accepted by `strtoll`: whether it is a minus, how many
characters it takes, and the text after it. -/
def stollSign : List Char → Bool × Nat × List Char
  | '-' :: rest => (true, 1, rest)
  | '+' :: rest => (false, 1, rest)
  | rest => (false, 0, rest)

/-- Value of a run of decimal digits. -/
def digitsValue (digits : List Char) : Nat :=
  digits.foldl (fun acc d => 10 * acc + (d.toNat - 48)) 0

/-- The library call `std::stoll(str, &pos)` in base 10, after the C++ standard
(`strtoll`): skip leading white space, take an optional sign and the longest run
of decimal digits; no digit is `invalid_argument`, a value outside the 64-bit
signed range is `out_of_range`; `pos` counts every character processed. -/
def stoll (str : List Char) : StollResult :=
  let blanks := str.takeWhile isspace
  let sign := stollSign (str.dropWhile isspace)
  let digits := sign.2.2.takeWhile Char.isDigit
  if digits.isEmpty then
    StollResult.invalid_argument
  else
    let value : Int := if sign.1 then -(digitsValue digits : Int) else (digitsValue digits : Int)
    if value < -(2 : Int) ^ 63 ∨ (2 : Int) ^ 63 ≤ value then
      StollResult.out_of_range
    else
      StollResult.ok value (blanks.length + sign.2.1 + digits.length)

/-- Function `toNumber(string, &number)`: the returned `bool`, the value of
`number` after the call, and the lines written to the error stream. -/
def toNumber (string : String) (number : Int) : Bool × Int × List String :=
  match stoll string.toList with
  | StollResult.invalid_argument =>
    (false, number, ["\x27" ++ string ++ "\x27 can\x27t be converted to an integer value"])
  | StollResult.out_of_range =>
    (false, number, ["\x27" ++ string ++ "\x27 value is out of range"])
  | StollResult.ok value final_pos =>
    if string.length ≠ final_pos then
      (false, value, ["\x27" ++ string ++ "\x27 can\x27t be fully converted to an integer"])
    else
      (true, value, [])

/-- The loop of `outputError` that writes the parameters after the first, each
preceded by a space: `remaining` iterations starting at index `i`. -/
def outputErrorRest (parameters : List String) (offset : Nat) : Nat → Nat → String
  | 0, _ => ""
  | remaining + 1, i =>
    " " ++ parameters.getD (offset + i) "" ++ outputErrorRest parameters offset remaining (i + 1)

/-- Function `outputError(parameters, offset, count, message)`: the line written
to the error stream. -/
def outputError (parameters : List String) (offset count : Nat) (message : String) : String :=
  "(" ++ parameters.getD offset "" ++ outputErrorRest parameters offset (count - 1) 1
    ++ ") => " ++ message

/-- The loop of `parseParameters` with `remaining = params->size() - i`
iterations left: the returned `bool`, the parameters after the call and the
lines written to the error stream. -/
def parseParametersLoop (parameters : List String) (offset : Nat) :
    Nat → Nat → EquationParams → Bool × EquationParams × List String
  | 0, _, params => (true, params, [])
  | remaining + 1, i, params =>
    match toNumber (parameters.getD (offset + i) "") (params.get i) with
    | (false, number, lines) =>
      (false, params.set i number,
        lines ++ [outputError parameters offset 3 "failed to convert parameters to integers"])
    | (true, number, lines) =>
      match parseParametersLoop parameters offset remaining (i + 1) (params.set i number) with
      | (ok, params1, lines1) => (ok, params1, lines ++ lines1)

/-- Function `parseParameters(parameters, offset, &params)`. -/
def parseParameters (parameters : List String) (offset : Nat) (params : EquationParams) :
    Bool × EquationParams × List String :=
  parseParametersLoop parameters offset 3 0 params

/-- What the producer thread does, in program order. -/
inductive Event where
  | push (params : EquationParams)
  | setDone
  | cerr (line : String)
deriving DecidableEq, Repr

namespace Producer

/-- The stride loop of `Producer::producer`, from `offset` on, with `fuel`
bounding the iterations: the offset and the parameters at loop exit and the
events of the loop. -/
def producerLoop (parameters : List String) (parameter_count : Nat) :
    Nat → Nat → EquationParams → Nat × EquationParams × List Event
  | 0, offset, params => (offset, params, [])
  | fuel + 1, offset, params =>
    if offset + 3 ≤ parameter_count then
      match parseParameters parameters offset params with
      | (true, params1, lines) =>
        match producerLoop parameters parameter_count fuel (offset + 3) params1 with
        | (offset2, params2, events) =>
          (offset2, params2, lines.map Event.cerr ++ Event.push params1 :: events)
      | (false, params1, lines) =>
        match producerLoop parameters parameter_count fuel (offset + 3) params1 with
        | (offset2, params2, events) => (offset2, params2, lines.map Event.cerr ++ events)
    else
      (offset, params, [])

/-- Method `Producer::producer(parameters, parameter_count)`, started with
`params` holding any value: the events of the thread in program order. Every
iteration advances the offset by 3, so `parameter_count` iterations suffice. -/
def producer (parameters : List String) (parameter_count : Nat) (params : EquationParams) :
    List Event :=
  match producerLoop parameters parameter_count parameter_count 0 params with
  | (offset, _, events) =>
    events ++ Event.setDone ::
      (if offset < parameter_count then
        [Event.cerr (outputError parameters offset (parameter_count - offset)
          "Unprocessed parameters: parameter count must be a multiple of 3!")]
      else [])

end Producer

/-- The triples pushed in a run of events, in order. -/
def pushesOf : List Event → List EquationParams
  | [] => []
  | Event.push params :: events => params :: pushesOf events
  | _ :: events => pushesOf events

/-- Integer conversion of one token: the value stored by `toNumber` when it
returns `true`. -/
def convertToken (token : String) : Option Int :=
  if (toNumber token 0).1 then some (toNumber token 0).2.1 else none

/-- The stride `i` of a token sequence, tokens `3i`, `3i+1`, `3i+2`, converted
when all three convert. -/
def convertStride (tokens : List String) (i : Nat) : Option EquationParams :=
  match convertToken (tokens.getD (3 * i) ""), convertToken (tokens.getD (3 * i + 1) ""),
    convertToken (tokens.getD (3 * i + 2) "") with
  | some a, some b, some c => some (EquationParams.mk a b c)
  | _, _, _ => none

/-- The conversions of the strides `i = 0 .. n/3 - 1` in which all three tokens
convert, in order. -/
def convertedStrides (tokens : List String) : List EquationParams :=
  (List.range (tokens.length / 3)).filterMap (convertStride tokens)

/-! ## consumer.cpp: the solver

The `double` values of the source are elements of a field `D` with a square
root function `sqrt`, and the operations on them are the exact field
operations: rounding is not represented. -/

/-- Two's complement reduction to the range of `int64_t`. -/
def wrap64 (x : Int) : Int :=
  (x + 2 ^ 63) % 2 ^ 64 - 2 ^ 63

/-- The value lies in the range of `int64_t`. -/
def inInt64 (x : Int) : Prop :=
  -(2 : Int) ^ 63 ≤ x ∧ x < (2 : Int) ^ 63

instance (x : Int) : Decidable (inInt64 x) := by
  unfold inInt64; infer_instance

/-- Equation roots: the struct `roots_t`. -/
structure roots_t (D : Type) where
  first_root : Option D
  second_root : Option D

/-- Number of roots held by a `roots_t`, read as `outputResult` and the
documentation of `solveQuadraticEquation` read it: two if both fields have a
value, one if only `first_root` has, none otherwise. -/
def roots_t.count {D : Type} (roots : roots_t D) : Nat :=
  if roots.first_root.isSome && roots.second_root.isSome then 2
  else if roots.first_root.isSome then 1
  else 0

/-- Function `isLinearEquation(params)`: `params[0] == 0`. -/
def isLinearEquation (params : EquationParams) : Bool :=
  params.get 0 == 0

/-- Function `solveLinearEquation(k, b)`: `static_cast<double>(-b) / k` when
`k != 0`, with `-b` computed in `int64_t`. -/
def solveLinearEquation {D : Type} [DivisionRing D] (k b : Int) : Option D :=
  if k ≠ 0 then
    some (((wrap64 (-b) : Int) : D) / (k : D))
  else
    none

/-- The initialiser `b * b - 4 * a * c` of `discriminant`, computed in `int64_t`. -/
def discriminant64 (a b c : Int) : Int :=
  wrap64 (wrap64 (b * b) - wrap64 (wrap64 (4 * a) * c))

/-- Function `solveQuadraticEquation(a, b, c)`. -/
def solveQuadraticEquation {D : Type} [DivisionRing D] (sqrt : D → D) (a b c : Int) :
    roots_t D :=
  let discriminant := discriminant64 a b c
  if discriminant > 0 then
    let sqrt_d := sqrt (discriminant : D)
    { first_root := some ((((wrap64 (-b) : Int) : D) + sqrt_d) / (2 * (a : D))),
      second_root := some ((((wrap64 (-b) : Int) : D) - sqrt_d) / (2 * (a : D))) }
  else if discriminant = 0 then
    { first_root := some (((wrap64 (-b) : Int) : D) / (2 * (a : D))), second_root := none }
  else
    { first_root := none, second_root := none }

/-- Function `solveEquation(params)`. -/
def solveEquation {D : Type} [DivisionRing D] (sqrt : D → D) (params : EquationParams) :
    roots_t D :=
  if !isLinearEquation params then
    solveQuadraticEquation sqrt (params.get 0) (params.get 1) (params.get 2)
  else
    { first_root := solveLinearEquation (params.get 1) (params.get 2), second_root := none }

/-- No 64-bit operation in the computation of the discriminant overflows. -/
def discriminantExact (a b c : Int) : Prop :=
  inInt64 (b * b) ∧ inInt64 (4 * a) ∧ inInt64 (4 * a * c) ∧ inInt64 (b * b - 4 * a * c)

instance (a b c : Int) : Decidable (discriminantExact a b c) := by
  unfold discriminantExact; infer_instance

/-! ## consumer.cpp: output and the consumer thread

A `double` is written to the stream by the library formatter, here a function
`showDouble : D → String`; an `int64_t` is written in decimal. -/

/-- Function `outputResult(params, roots, extremum)`: the line written to the
output stream. -/
def outputResult {D : Type} (showDouble : D → String) (params : EquationParams)
    (roots : roots_t D) (extremum : D) : String :=
  let ss := "(" ++ toString (params.get 0) ++ " " ++ toString (params.get 1) ++ " "
    ++ toString (params.get 2) ++ ") => "
  let ss :=
    match roots.first_root, roots.second_root with
    | some first, some second => ss ++ "(" ++ showDouble first ++ ", " ++ showDouble second ++ "), "
    | some first, none => ss ++ "(" ++ showDouble first ++ "), "
    | none, _ => ss ++ "no roots, "
  if params.get 0 > 0 then
    ss ++ "Xmin=" ++ showDouble extremum
  else if params.get 0 < 0 then
    ss ++ "Xmax=" ++ showDouble extremum
  else
    ss ++ "no extremum"

/-- The expression `solveLinearEquation(2 * params[0], params[1])` of
`Consumer::consumer`, with `2 * params[0]` computed in `int64_t`. -/
def extremumOf {D : Type} [DivisionRing D] (params : EquationParams) : Option D :=
  solveLinearEquation (wrap64 (2 * params.get 0)) (params.get 1)

/-- The body of the loop of `Consumer::consumer` for one popped triple: the line
it writes, or `none` when `.value()` is called on an empty optional and throws
`std::bad_optional_access`. -/
def consumerBody {D : Type} [DivisionRing D] (sqrt : D → D) (showDouble : D → String)
    (params : EquationParams) : Option String :=
  let roots := solveEquation sqrt params
  if !isLinearEquation params then
    match (extremumOf params : Option D) with
    | some extremum => some (outputResult showDouble params roots extremum)
    | none => none
  else
    some (outputResult showDouble params roots 0)

/-- The text of the roots in a result line, by the number of roots. -/
def rootsText {D : Type} (showDouble : D → String) (roots : roots_t D) : String :=
  match roots.first_root, roots.second_root with
  | some r1, some r2 => "(" ++ showDouble r1 ++ ", " ++ showDouble r2 ++ ")"
  | some r1, none => "(" ++ showDouble r1 ++ ")"
  | none, _ => "no roots"

/-- The text of the extremum in a result line, by the sign of `a`. -/
def extremumText {D : Type} (showDouble : D → String) (a : Int) (v : D) : String :=
  if 0 < a then "Xmin=" ++ showDouble v
  else if a < 0 then "Xmax=" ++ showDouble v
  else "no extremum"

/-! ## The error stream of the producer -/

/-- The lines written to the error stream in a run of events, in order. -/
def cerrOf : List Event → List String
  | [] => []
  | Event.cerr line :: events => line :: cerrOf events
  | _ :: events => cerrOf events

/-- The three diagnostics `toNumber` can write for a token. -/
def diagnosticsOf (token : String) : List String :=
  ["\x27" ++ token ++ "\x27 can\x27t be converted to an integer value",
   "\x27" ++ token ++ "\x27 value is out of range",
   "\x27" ++ token ++ "\x27 can\x27t be fully converted to an integer"]

/-- The line `(t0 t1 t2) => failed to convert parameters to integers` for the
stride `i` of a token sequence. -/
def failedStrideLine (tokens : List String) (i : Nat) : String :=
  "(" ++ tokens.getD (3 * i) "" ++ " " ++ tokens.getD (3 * i + 1) "" ++ " "
    ++ tokens.getD (3 * i + 2) "" ++ ") => failed to convert parameters to integers"

/-- The message of the report on trailing tokens. -/
def unprocessedMessage : String :=
  "Unprocessed parameters: parameter count must be a multiple of 3!"

/-- The lines `parseParameters` writes to the error stream for the stride `i` of
a token sequence. -/
def strideErrorLines (tokens : List String) (i : Nat) : List String :=
  (parseParameters tokens (3 * i) (EquationParams.mk 0 0 0)).2.2

/-- The report on the trailing tokens of a token sequence: nothing when the
length is a multiple of 3, otherwise one line listing the last one or two
tokens. -/
def trailingReport (tokens : List String) : List String :=
  if tokens.length % 3 = 1 then
    ["(" ++ tokens.getD (tokens.length - 1) "" ++ ") => " ++ unprocessedMessage]
  else if tokens.length % 3 = 2 then
    ["(" ++ tokens.getD (tokens.length - 2) "" ++ " " ++ tokens.getD (tokens.length - 1) ""
      ++ ") => " ++ unprocessedMessage]
  else
    []

/-- The line ends with the message of the report on trailing tokens. -/
def isReport (line : String) : Bool :=
  unprocessedMessage.data.isSuffixOf line.data

/-- The shape of a token that `std::stoll` converts in full, with its value:
white space, then an optional sign, then one or more decimal digits and nothing
else, the value lying in the 64-bit signed range. -/
def TokenShape (chars : List Char) (value : Int) : Prop :=
  ∃ blanks sign digits, chars = blanks ++ sign ++ digits ∧
    (∀ c ∈ blanks, isspace c = true) ∧
    (sign = [] ∨ sign = ['+'] ∨ sign = ['-']) ∧
    digits ≠ [] ∧ (∀ c ∈ digits, c.isDigit = true) ∧
    value = (if sign = ['-'] then -(digitsValue digits : Int) else (digitsValue digits : Int)) ∧
    inInt64 value

/-! ## main.cpp: the pipeline

The producer thread, the consumer threads and the queue they share, with each
queue call as one atomic step. What a consumer does with a popped triple
(`consumerBody`) takes no queue call and is not a step. -/

/-- Function `getConsumerCount()`, given `std::thread::hardware_concurrency()`. -/
def getConsumerCount (hardware_concurrency : Nat) : Nat :=
  max hardware_concurrency 2 - 1

/-- A consumer thread is in its loop, or has returned after `pop` gave `false`. -/
inductive ConsumerState where
  | running
  | terminated
deriving DecidableEq, Repr

/-- The threads started by `main`. -/
inductive Thread where
  | producer
  | consumer (i : Nat)
deriving DecidableEq, Repr

/-- State of the pipeline: the queue, the events the producer has still to
perform, the state of each consumer, the triples handed to consumers (with the
consumer that got each) and the lines on the error stream. -/
structure Pipeline where
  queue : ParameterQueue
  producer : List Event
  consumers : List ConsumerState
  delivered : List (Nat × EquationParams)
  cerr : List String
deriving DecidableEq, Repr

/-- The pipeline as `main` sets it up for the given tokens: a queue of the given
capacity, the producer at the start of `Producer::producer` and
`consumer_count` consumers at the start of their loop. -/
def Pipeline.init (tokens : List String) (params : EquationParams)
    (consumer_count capacity : Nat) : Pipeline :=
  { queue := ParameterQueue.new capacity,
    producer := Producer.producer tokens tokens.length params,
    consumers := List.replicate consumer_count ConsumerState.running,
    delivered := [],
    cerr := [] }

/-- One step of a thread: `none` when the thread has no enabled step (it has
finished, or its queue call is blocked). -/
def Pipeline.step (s : Pipeline) : Thread → Option Pipeline
  | Thread.producer =>
    match s.producer with
    | [] => none
    | Event.push params :: rest =>
      match s.queue.push params with
      | some q => some { s with queue := q, producer := rest }
      | none => none
    | Event.setDone :: rest => some { s with queue := s.queue.setDone, producer := rest }
    | Event.cerr line :: rest => some { s with cerr := s.cerr ++ [line], producer := rest }
  | Thread.consumer i =>
    match s.consumers[i]? with
    | some ConsumerState.running =>
      match s.queue.pop (EquationParams.mk 0 0 0) with
      | some (true, item, q) =>
        some { s with queue := q, delivered := s.delivered ++ [(i, item)] }
      | some (false, _, q) =>
        some { s with queue := q, consumers := s.consumers.set i ConsumerState.terminated }
      | none => none
    | _ => none

/-- A schedule of threads, run from left to right; a thread without an enabled
step leaves the state as it is. -/
def Pipeline.run (s : Pipeline) (schedule : List Thread) : Pipeline :=
  schedule.foldl (fun s t => (s.step t).getD s) s

/-- The producer and all consumers have terminated. -/
def Pipeline.Terminated (s : Pipeline) : Prop :=
  s.producer = [] ∧ ∀ c ∈ s.consumers, c = ConsumerState.terminated

/-- What holds in every reachable state of the pipeline started on `program`. -/
def Pipeline.Inv (capacity consumer_count : Nat) (program : List Event) (s : Pipeline) : Prop :=
  s.queue.m_max_queue_size = capacity ∧ s.consumers.length = consumer_count ∧
  s.delivered.map Prod.snd ++ s.queue.m_queue ++ pushesOf s.producer = pushesOf program ∧
  s.cerr ++ cerrOf s.producer = cerrOf program ∧
  ((s.queue.m_done_flag = false ∧
      (∃ pre post, s.producer = pre ++ Event.setDone :: post ∧ Event.setDone ∉ pre ∧
        ∀ x, Event.push x ∉ post) ∧
      ∀ c ∈ s.consumers, c = ConsumerState.running) ∨
   (s.queue.m_done_flag = true ∧ (∀ x, Event.push x ∉ s.producer) ∧
      ((∃ c ∈ s.consumers, c = ConsumerState.terminated) → s.queue.m_queue = [])))

/-- The number of consumers still in their loop. -/
def runningCount : List ConsumerState → Nat
  | [] => 0
  | ConsumerState.running :: cs => runningCount cs + 1
  | ConsumerState.terminated :: cs => runningCount cs

/-- A bound on the number of steps the pipeline can still take: every step
lowers it. -/
def Pipeline.measure (s : Pipeline) : Nat :=
  2 * s.producer.length + s.queue.m_queue.length + runningCount s.consumers

/-! ## pop and setDone below the level of a call

The calls of `pop` and `setDone` split into the steps between which another
thread can run. `m_queue_mtx` is held by at most one thread; `setDone` never
takes it. A thread blocked in `m_not_empty.wait` proceeds only after a
notification (the library permits spurious wakeups but promises none). No
thread calls `push`: in `Producer::producer` every `push` comes before
`setDone`. -/

/-- Where a thread stands inside one call of `pop`. -/
inductive PopPc where
  /-- Before the construction of `lock`. -/
  | start
  /-- Holding the mutex, about to evaluate the wait predicate. -/
  | locked
  /-- Holding the mutex, the predicate evaluated as false, about to block. -/
  | predicateFalse
  /-- Blocked on `m_not_empty`, the mutex released. -/
  | waiting
  /-- Notified, about to take the mutex again. -/
  | woken
  /-- Holding the mutex, the wait over, about to run the rest of `pop`. -/
  | passed
  /-- After the return, with the returned value. -/
  | returned (result : Bool)
deriving DecidableEq, Repr

/-- Where a thread stands inside one call of `setDone`. -/
inductive SetDonePc where
  | store
  | notifyNotFull
  | notifyNotEmpty
  | returned
deriving DecidableEq, Repr

/-- The threads of the fine-grained system: the one that calls `setDone`, and
the ones that call `pop`. -/
inductive FineThread where
  | signaller
  | popper (i : Nat)
deriving DecidableEq, Repr

/-- State of the fine-grained system: the queue, the owner of `m_queue_mtx`, the
position of each thread calling `pop` and of the thread calling `setDone`. -/
structure Fine where
  queue : ParameterQueue
  mutex : Option Nat
  poppers : List PopPc
  signaller : SetDonePc
deriving DecidableEq, Repr

/-- An empty queue, the mutex free, `popper_count` threads about to call `pop`
and one thread about to call `setDone`. -/
def Fine.init (capacity popper_count : Nat) : Fine :=
  { queue := ParameterQueue.new capacity, mutex := none,
    poppers := List.replicate popper_count PopPc.start, signaller := SetDonePc.store }

/-- Effect of `m_not_empty.notify_all()`: every thread blocked on it is woken. -/
def notifyAll (poppers : List PopPc) : List PopPc :=
  poppers.map (fun pc => if pc = PopPc.waiting then PopPc.woken else pc)

/-- One step of a thread of the fine-grained system; `none` when the thread
cannot move (blocked on the mutex or on the condition variable, or returned). -/
def Fine.step (s : Fine) : FineThread → Option Fine
  | FineThread.signaller =>
    match s.signaller with
    | SetDonePc.store =>
      some { s with queue := { s.queue with m_done_flag := true },
                    signaller := SetDonePc.notifyNotFull }
    | SetDonePc.notifyNotFull => some { s with signaller := SetDonePc.notifyNotEmpty }
    | SetDonePc.notifyNotEmpty =>
      some { s with poppers := notifyAll s.poppers, signaller := SetDonePc.returned }
    | SetDonePc.returned => none
  | FineThread.popper i =>
    match s.poppers[i]? with
    | some PopPc.start =>
      if s.mutex = none then
        some { s with mutex := some i, poppers := s.poppers.set i PopPc.locked }
      else none
    | some PopPc.locked =>
      if s.queue.popReady then some { s with poppers := s.poppers.set i PopPc.passed }
      else some { s with poppers := s.poppers.set i PopPc.predicateFalse }
    | some PopPc.predicateFalse =>
      some { s with mutex := none, poppers := s.poppers.set i PopPc.waiting }
    | some PopPc.woken =>
      if s.mutex = none then
        some { s with mutex := some i, poppers := s.poppers.set i PopPc.locked }
      else none
    | some PopPc.passed =>
      if s.queue.m_done_flag && s.queue.m_queue.isEmpty then
        some { s with mutex := none, poppers := s.poppers.set i (PopPc.returned false) }
      else
        match s.queue.m_queue with
        | _ :: rest =>
          some { s with queue := { s.queue with m_queue := rest }, mutex := none,
                        poppers := s.poppers.set i (PopPc.returned true) }
        | [] => none
    | _ => none

/-- A schedule of the fine-grained system, run from left to right; a thread
that cannot move leaves the state as it is. -/
def Fine.run (s : Fine) (schedule : List FineThread) : Fine :=
  schedule.foldl (fun s t => (s.step t).getD s) s

/-- The schedule in which a consumer evaluates the wait predicate of `pop`, then
`setDone` runs from start to return, then the consumer blocks. -/
def lostWakeupSchedule : List FineThread :=
  [FineThread.popper 0, FineThread.popper 0, FineThread.signaller, FineThread.signaller,
   FineThread.signaller, FineThread.popper 0]

/-! # Properties -/

/-! ## Queue: stepping lemmas -/

theorem ParameterQueue.push_eq_some_iff (q q1 : ParameterQueue) (x : EquationParams) :
    q.push x = some q1 ↔
      q.m_queue.length < q.m_max_queue_size ∧ q1 = { q with m_queue := q.m_queue ++ [x] } := by
  unfold ParameterQueue.push ParameterQueue.pushReady
  by_cases h : q.m_queue.length < q.m_max_queue_size
  · simp [h, eq_comm]
  · simp [h]

theorem ParameterQueue.push_eq_none_iff (q : ParameterQueue) (x : EquationParams) :
    q.push x = none ↔ q.m_max_queue_size ≤ q.m_queue.length := by
  unfold ParameterQueue.push ParameterQueue.pushReady
  by_cases h : q.m_queue.length < q.m_max_queue_size
  · simp [h]
  · simp [h]; omega

theorem ParameterQueue.pop_cons (q : ParameterQueue) (p front : EquationParams)
    (rest : List EquationParams) (h : q.m_queue = front :: rest) :
    q.pop p = some (true, front, { q with m_queue := rest }) := by
  simp [ParameterQueue.pop, ParameterQueue.popReady, h]

theorem ParameterQueue.pop_nil_done (q : ParameterQueue) (p : EquationParams)
    (h : q.m_queue = []) (hd : q.m_done_flag = true) :
    q.pop p = some (false, p, q) := by
  simp [ParameterQueue.pop, ParameterQueue.popReady, h, hd]

theorem ParameterQueue.pop_nil_open (q : ParameterQueue) (p : EquationParams)
    (h : q.m_queue = []) (hd : q.m_done_flag = false) :
    q.pop p = none := by
  simp [ParameterQueue.pop, ParameterQueue.popReady, h, hd]

theorem Sys.run_nil (s : Sys) : s.run [] = s := rfl

theorem Sys.run_cons (s : Sys) (op : Op) (ops : List Op) :
    s.run (op :: ops) = (s.step op).run ops := rfl

theorem Sys.run_append (s : Sys) (ops1 ops2 : List Op) :
    s.run (ops1 ++ ops2) = (s.run ops1).run ops2 := by
  simp [Sys.run, List.foldl_append]

theorem Sys.step_max_queue_size (s : Sys) (op : Op) :
    (s.step op).queue.m_max_queue_size = s.queue.m_max_queue_size := by
  cases op with
  | push x =>
    simp only [Sys.step]
    cases hp : s.queue.push x with
    | none => rfl
    | some q1 =>
      obtain ⟨-, rfl⟩ := (ParameterQueue.push_eq_some_iff _ _ _).1 hp
      rfl
  | pop c =>
    simp only [Sys.step]
    cases hq : s.queue.m_queue with
    | nil =>
      cases hd : s.queue.m_done_flag with
      | true => rw [ParameterQueue.pop_nil_done _ _ hq hd]
      | false => rw [ParameterQueue.pop_nil_open _ _ hq hd]
    | cons front rest => rw [ParameterQueue.pop_cons _ _ _ _ hq]
  | setDone => rfl

theorem Sys.step_length_le (s : Sys) (op : Op)
    (h : s.queue.m_queue.length ≤ s.queue.m_max_queue_size) :
    (s.step op).queue.m_queue.length ≤ s.queue.m_max_queue_size := by
  cases op with
  | push x =>
    simp only [Sys.step]
    cases hp : s.queue.push x with
    | none => exact h
    | some q1 =>
      obtain ⟨hlt, rfl⟩ := (ParameterQueue.push_eq_some_iff _ _ _).1 hp
      simp only [List.length_append, List.length_singleton]
      omega
  | pop c =>
    simp only [Sys.step]
    cases hq : s.queue.m_queue with
    | nil =>
      cases hd : s.queue.m_done_flag with
      | true => rw [ParameterQueue.pop_nil_done _ _ hq hd]; simp [hq]
      | false => rw [ParameterQueue.pop_nil_open _ _ hq hd]; simp [hq]
    | cons front rest =>
      rw [ParameterQueue.pop_cons _ _ _ _ hq]
      rw [hq] at h
      simp only [List.length_cons] at h ⊢
      omega
  | setDone => exact h

theorem Sys.run_bounded (ops : List Op) (s : Sys)
    (h : s.queue.m_queue.length ≤ s.queue.m_max_queue_size) :
    (s.run ops).queue.m_max_queue_size = s.queue.m_max_queue_size ∧
      (s.run ops).queue.m_queue.length ≤ s.queue.m_max_queue_size := by
  induction ops generalizing s with
  | nil => exact ⟨rfl, h⟩
  | cons op ops ih =>
    rw [Sys.run_cons]
    have h1 := Sys.step_length_le s op h
    have h2 := Sys.step_max_queue_size s op
    have := ih (s.step op) (by rw [h2]; exact h1)
    rw [h2] at this
    exact this

theorem Sys.run_init_bounded (cap : Nat) (ops : List Op) :
    ((Sys.init cap).run ops).queue.m_max_queue_size = cap ∧
      ((Sys.init cap).run ops).queue.m_queue.length ≤ cap :=
  Sys.run_bounded ops (Sys.init cap) (Nat.zero_le _)

theorem ParameterQueue.pop_eq_none_iff (q : ParameterQueue) (p : EquationParams) :
    q.pop p = none ↔ q.m_queue = [] ∧ q.m_done_flag = false := by
  cases hq : q.m_queue with
  | nil =>
    cases hd : q.m_done_flag with
    | true => rw [ParameterQueue.pop_nil_done _ _ hq hd]; simp
    | false => rw [ParameterQueue.pop_nil_open _ _ hq hd]; simp
  | cons front rest => rw [ParameterQueue.pop_cons _ _ _ _ hq]; simp

theorem Sys.step_delivered_length_le (s : Sys) (op : Op) :
    s.delivered.length ≤ (s.step op).delivered.length := by
  cases op with
  | push x =>
    simp only [Sys.step]
    cases s.queue.push x <;> exact Nat.le_refl _
  | pop c =>
    simp only [Sys.step]
    cases hq : s.queue.m_queue with
    | nil =>
      cases hd : s.queue.m_done_flag with
      | true => rw [ParameterQueue.pop_nil_done _ _ hq hd]
      | false => rw [ParameterQueue.pop_nil_open _ _ hq hd]
    | cons front rest => rw [ParameterQueue.pop_cons _ _ _ _ hq]; simp
  | setDone => exact Nat.le_refl _

theorem Sys.run_delivered_length_le (ops : List Op) (s : Sys) :
    s.delivered.length ≤ (s.run ops).delivered.length := by
  induction ops generalizing s with
  | nil => exact Nat.le_refl _
  | cons op ops ih =>
    rw [Sys.run_cons]
    exact Nat.le_trans (Sys.step_delivered_length_le s op) (ih _)

theorem Sys.step_full_no_delivery (s : Sys) (op : Op)
    (hfull : s.queue.m_max_queue_size ≤ s.queue.m_queue.length)
    (hdel : (s.step op).delivered.length = s.delivered.length) :
    (s.step op).queue.m_queue = s.queue.m_queue ∧ (s.step op).pushed = s.pushed := by
  cases op with
  | push x =>
    simp only [Sys.step]
    rw [(ParameterQueue.push_eq_none_iff _ x).2 hfull]
    exact ⟨rfl, rfl⟩
  | pop c =>
    simp only [Sys.step] at hdel ⊢
    cases hq : s.queue.m_queue with
    | nil =>
      cases hd : s.queue.m_done_flag with
      | true => rw [ParameterQueue.pop_nil_done _ _ hq hd]; exact ⟨hq, rfl⟩
      | false => rw [ParameterQueue.pop_nil_open _ _ hq hd]; exact ⟨hq, rfl⟩
    | cons front rest =>
      rw [ParameterQueue.pop_cons _ _ _ _ hq] at hdel
      simp at hdel
  | setDone => exact ⟨rfl, rfl⟩

theorem Sys.run_full_no_delivery (ops : List Op) (s : Sys)
    (hfull : s.queue.m_max_queue_size ≤ s.queue.m_queue.length)
    (hdel : (s.run ops).delivered.length = s.delivered.length) :
    (s.run ops).queue.m_queue = s.queue.m_queue ∧ (s.run ops).pushed = s.pushed ∧
      (s.run ops).queue.m_max_queue_size = s.queue.m_max_queue_size := by
  induction ops generalizing s with
  | nil => exact ⟨rfl, rfl, rfl⟩
  | cons op ops ih =>
    rw [Sys.run_cons] at hdel ⊢
    have h1 := Sys.step_delivered_length_le s op
    have h2 := Sys.run_delivered_length_le ops (s.step op)
    have hstep : (s.step op).delivered.length = s.delivered.length := by omega
    obtain ⟨hq, hp⟩ := Sys.step_full_no_delivery s op hfull hstep
    have hc := Sys.step_max_queue_size s op
    have := ih (s.step op) (by rw [hq, hc]; exact hfull) (by rw [hstep]; exact hdel)
    rw [hq, hp, hc] at this
    exact this

/-! ## Queue: capacity and backpressure -/

/-- C1. Capacity invariant and backpressure. After any schedule of attempted
push / pop / setDone calls on a fresh queue of capacity `cap`, the capacity is
unchanged and the number of pending items lies between 0 and `cap`. When the
queue holds exactly `cap` items a push is blocked, it stays without effect over
any further schedule in which no pop removes an item, and after a pop that
removed an item the push is enabled and appends its item at the tail. With capacity 1 the
second of two pushes completes only after one pop. -/
theorem queue_capacity_invariant_and_backpressure (cap : Nat) (ops : List Op)
    (x y : EquationParams) :
    ((Sys.init cap).run ops).queue.m_max_queue_size = cap ∧
    0 ≤ ((Sys.init cap).run ops).queue.m_queue.length ∧
    ((Sys.init cap).run ops).queue.m_queue.length ≤ cap ∧
    (((Sys.init cap).run ops).queue.m_queue.length = cap →
      ((Sys.init cap).run ops).queue.push x = none ∧
      (∀ more : List Op,
        (((Sys.init cap).run ops).run more).delivered.length
            = ((Sys.init cap).run ops).delivered.length →
        (((Sys.init cap).run ops).run more).queue.m_queue
            = ((Sys.init cap).run ops).queue.m_queue ∧
          (((Sys.init cap).run ops).run more).pushed = ((Sys.init cap).run ops).pushed ∧
          (((Sys.init cap).run ops).run more).queue.push x = none) ∧
      (∀ (p item : EquationParams) (q1 : ParameterQueue),
        ((Sys.init cap).run ops).queue.pop p = some (true, item, q1) →
          ((Sys.init cap).run ops).queue.m_queue = item :: q1.m_queue ∧
          q1.push x = some { q1 with m_queue := q1.m_queue ++ [x] })) ∧
    ((Sys.init 1).run [Op.push x, Op.push y]).queue.m_queue = [x] ∧
    ((Sys.init 1).run [Op.push x, Op.push y]).pushed = [x] ∧
    ((Sys.init 1).run [Op.push x, Op.push y, Op.pop 0]).queue.m_queue = [] ∧
    ((Sys.init 1).run [Op.push x, Op.push y, Op.pop 0]).delivered = [(0, x)] ∧
    ((Sys.init 1).run [Op.push x, Op.push y, Op.pop 0, Op.push y]).queue.m_queue = [y] ∧
    ((Sys.init 1).run [Op.push x, Op.push y, Op.pop 0, Op.push y]).pushed = [x, y] := by
  obtain ⟨hcap, hlen⟩ := Sys.run_init_bounded cap ops
  refine ⟨hcap, Nat.zero_le _, hlen, ?_, rfl, rfl, rfl, rfl, rfl, rfl⟩
  intro hfull
  have hge : ((Sys.init cap).run ops).queue.m_max_queue_size
      ≤ ((Sys.init cap).run ops).queue.m_queue.length := by omega
  refine ⟨(ParameterQueue.push_eq_none_iff _ x).2 hge, ?_, ?_⟩
  · intro more hmore
    obtain ⟨h1, h2, h4⟩ := Sys.run_full_no_delivery more _ hge hmore
    refine ⟨h1, h2, (ParameterQueue.push_eq_none_iff _ x).2 ?_⟩
    rw [h1, h4]; exact hge
  · intro p item q1 hpop
    cases hq : ((Sys.init cap).run ops).queue.m_queue with
    | nil =>
      cases hd : ((Sys.init cap).run ops).queue.m_done_flag with
      | true => rw [ParameterQueue.pop_nil_done _ _ hq hd] at hpop; simp at hpop
      | false => rw [ParameterQueue.pop_nil_open _ _ hq hd] at hpop; simp at hpop
    | cons front rest =>
      rw [ParameterQueue.pop_cons _ _ _ _ hq] at hpop
      simp only [Option.some.injEq, Prod.mk.injEq, true_and] at hpop
      obtain ⟨rfl, rfl⟩ := hpop
      refine ⟨rfl, (ParameterQueue.push_eq_some_iff _ _ _).2 ⟨?_, rfl⟩⟩
      rw [hq] at hfull
      simp only [List.length_cons] at hfull ⊢
      omega

/-- Witness for C1: capacity 2, after two completed pushes the queue is full, a
third push is blocked, and it is enabled after the pop of the head. -/
theorem queue_capacity_invariant_and_backpressure_witness :
    ((Sys.init 2).run [Op.push ⟨1, -3, 2⟩, Op.push ⟨0, 2, -4⟩]).queue.m_queue.length = 2 ∧
    ((Sys.init 2).run [Op.push ⟨1, -3, 2⟩, Op.push ⟨0, 2, -4⟩]).queue.push ⟨1, 2, 5⟩ = none ∧
    (ParameterQueue.mk 2 [⟨0, 2, -4⟩] false).push ⟨1, 2, 5⟩
      = some (ParameterQueue.mk 2 [⟨0, 2, -4⟩, ⟨1, 2, 5⟩] false) :=
  have h := (queue_capacity_invariant_and_backpressure 2
    [Op.push ⟨1, -3, 2⟩, Op.push ⟨0, 2, -4⟩] ⟨1, 2, 5⟩ ⟨0, 0, 5⟩).2.2.2.1 rfl
  ⟨rfl, h.1, (h.2.2 ⟨0, 0, 0⟩ ⟨1, -3, 2⟩ (ParameterQueue.mk 2 [⟨0, 2, -4⟩] false) rfl).2⟩

/-! ## Queue: conservation -/

theorem Sys.step_conserved (s : Sys) (op : Op) (h : s.Conserved) : (s.step op).Conserved := by
  unfold Sys.Conserved at h ⊢
  cases op with
  | push x =>
    simp only [Sys.step]
    cases hp : s.queue.push x with
    | none => exact h
    | some q1 =>
      obtain ⟨-, rfl⟩ := (ParameterQueue.push_eq_some_iff _ _ _).1 hp
      simp only [← h, List.append_assoc]
  | pop c =>
    simp only [Sys.step]
    cases hq : s.queue.m_queue with
    | nil =>
      cases hd : s.queue.m_done_flag with
      | true => rw [ParameterQueue.pop_nil_done _ _ hq hd]; exact h
      | false => rw [ParameterQueue.pop_nil_open _ _ hq hd]; exact h
    | cons front rest =>
      rw [ParameterQueue.pop_cons _ _ _ _ hq]
      rw [hq] at h
      simp only [List.map_append, List.map_cons, List.map_nil, List.append_assoc,
        List.singleton_append]
      exact h
  | setDone => exact h

theorem Sys.run_conserved (ops : List Op) (s : Sys) (h : s.Conserved) :
    (s.run ops).Conserved := by
  induction ops generalizing s with
  | nil => exact h
  | cons op ops ih => exact ih _ (Sys.step_conserved s op h)

theorem Sys.run_init_conserved (cap : Nat) (ops : List Op) :
    ((Sys.init cap).run ops).Conserved :=
  Sys.run_conserved ops _ rfl

/-- C2. Conservation and exactly-once delivery. After any schedule of atomic
push / pop / setDone steps (pops attempted by any consumers) on a fresh queue,
the items returned by successful pops, in the order of the pops, followed by
the pending items, are the pushed items in push order. Hence the k-th
successful pop returned the k-th pushed item (no pushed item is returned by two
pops), successful pops plus pending items count the pushes, and once the queue
is drained the successful pops are as many as the pushes. -/
theorem queue_conservation_exactly_once (cap : Nat) (ops : List Op) :
    ((Sys.init cap).run ops).delivered.map Prod.snd ++ ((Sys.init cap).run ops).queue.m_queue
      = ((Sys.init cap).run ops).pushed ∧
    (∀ k, k < ((Sys.init cap).run ops).delivered.length →
      (((Sys.init cap).run ops).delivered.map Prod.snd)[k]?
        = ((Sys.init cap).run ops).pushed[k]?) ∧
    ((Sys.init cap).run ops).delivered.length + ((Sys.init cap).run ops).queue.m_queue.length
      = ((Sys.init cap).run ops).pushed.length ∧
    (((Sys.init cap).run ops).queue.m_queue = [] →
      ((Sys.init cap).run ops).delivered.map Prod.snd = ((Sys.init cap).run ops).pushed ∧
      ((Sys.init cap).run ops).delivered.length = ((Sys.init cap).run ops).pushed.length) := by
  have h := Sys.run_init_conserved cap ops
  unfold Sys.Conserved at h
  refine ⟨h, ?_, ?_, ?_⟩
  · intro k hk
    rw [← h, List.getElem?_append_left (by simpa using hk)]
  · rw [← h]; simp
  · intro he
    rw [he, List.append_nil] at h
    refine ⟨h, ?_⟩
    rw [← h]; simp

/-- Witness for C2: one producer, two consumers, capacity 1. -/
theorem queue_conservation_exactly_once_witness :
    ((Sys.init 1).run [Op.push ⟨1, -3, 2⟩, Op.pop 1, Op.push ⟨0, 2, -4⟩, Op.setDone,
        Op.pop 0, Op.pop 1, Op.pop 0]).delivered = [(1, ⟨1, -3, 2⟩), (0, ⟨0, 2, -4⟩)] ∧
    ((Sys.init 1).run [Op.push ⟨1, -3, 2⟩, Op.pop 1, Op.push ⟨0, 2, -4⟩, Op.setDone,
        Op.pop 0, Op.pop 1, Op.pop 0]).delivered.length =
      ((Sys.init 1).run [Op.push ⟨1, -3, 2⟩, Op.pop 1, Op.push ⟨0, 2, -4⟩, Op.setDone,
        Op.pop 0, Op.pop 1, Op.pop 0]).pushed.length :=
  ⟨rfl, ((queue_conservation_exactly_once 1 [Op.push ⟨1, -3, 2⟩, Op.pop 1,
    Op.push ⟨0, 2, -4⟩, Op.setDone, Op.pop 0, Op.pop 1, Op.pop 0]).2.2.2 rfl).2⟩

/-! ## Queue: termination of pop -/

theorem Sys.step_closed (s : Sys) (op : Op) (hd : s.queue.m_done_flag = true)
    (he : s.queue.m_queue = []) (hop : ∀ x, op ≠ Op.push x) :
    (s.step op).queue = s.queue ∧ (s.step op).pushed = s.pushed ∧
      (s.step op).delivered = s.delivered ∧
      (s.step op).refused = s.refused ++ poppers [op] := by
  cases op with
  | push x => exact absurd rfl (hop x)
  | pop c =>
    simp only [Sys.step]
    rw [ParameterQueue.pop_nil_done _ _ he hd]
    exact ⟨rfl, rfl, rfl, rfl⟩
  | setDone =>
    refine ⟨?_, rfl, rfl, by simp [Sys.step, poppers]⟩
    cases s with
    | mk q a b c =>
      cases q with
      | mk m l d =>
        simp only at hd
        subst hd
        rfl

theorem poppers_cons (op : Op) (ops : List Op) : poppers (op :: ops) = poppers [op] ++ poppers ops := by
  cases op <;> simp [poppers]

theorem Sys.run_closed (ops : List Op) (s : Sys) (hd : s.queue.m_done_flag = true)
    (he : s.queue.m_queue = []) (hops : ∀ op ∈ ops, ∀ x, op ≠ Op.push x) :
    (s.run ops).queue = s.queue ∧ (s.run ops).pushed = s.pushed ∧
      (s.run ops).delivered = s.delivered ∧
      (s.run ops).refused = s.refused ++ poppers ops := by
  induction ops generalizing s with
  | nil => exact ⟨rfl, rfl, rfl, by simp [Sys.run_nil, poppers]⟩
  | cons op ops ih =>
    rw [Sys.run_cons]
    obtain ⟨h1, h2, h3, h4⟩ := Sys.step_closed s op hd he (hops op (List.mem_cons_self _ _))
    have := ih (s.step op) (by rw [h1]; exact hd) (by rw [h1]; exact he)
      (fun o ho => hops o (List.mem_cons_of_mem _ ho))
    rw [h1, h2, h3, h4, List.append_assoc, ← poppers_cons] at this
    exact this

/-- C3. Termination of pop. In a queue whose flag is set and whose pending list
is empty, pop is enabled (it does not block), returns false, leaves the output
parameter and the queue unchanged, and setDone changes nothing; over any
schedule of pop and setDone calls the queue stays in that state, nothing is
delivered, and every pop of the schedule returns false. -/
theorem pop_after_done_and_drained (s : Sys) (p : EquationParams)
    (hd : s.queue.m_done_flag = true) (he : s.queue.m_queue = [])
    (ops : List Op) (hops : ∀ op ∈ ops, ∀ x, op ≠ Op.push x) :
    s.queue.pop p = some (false, p, s.queue) ∧
    s.queue.setDone = s.queue ∧
    (s.run ops).queue = s.queue ∧
    (s.run ops).delivered = s.delivered ∧
    (s.run ops).refused = s.refused ++ poppers ops := by
  obtain ⟨h1, -, h3, h4⟩ := Sys.run_closed ops s hd he hops
  refine ⟨ParameterQueue.pop_nil_done _ _ he hd, ?_, h1, h3, h4⟩
  exact (Sys.step_closed s Op.setDone hd he (fun x => by simp)).1

/-- Witness for C3: the closed queue of capacity 2 under pops by three consumers
and a repeated setDone. -/
theorem pop_after_done_and_drained_witness :
    (ParameterQueue.mk 2 [] true).pop ⟨7, 7, 7⟩
      = some (false, ⟨7, 7, 7⟩, ParameterQueue.mk 2 [] true) ∧
    (ParameterQueue.mk 2 [] true).setDone = ParameterQueue.mk 2 [] true ∧
    ((Sys.mk (ParameterQueue.mk 2 [] true) [] [] []).run
      [Op.pop 0, Op.pop 1, Op.setDone, Op.pop 2, Op.pop 0]).queue = ParameterQueue.mk 2 [] true ∧
    ((Sys.mk (ParameterQueue.mk 2 [] true) [] [] []).run
      [Op.pop 0, Op.pop 1, Op.setDone, Op.pop 2, Op.pop 0]).delivered = [] ∧
    ((Sys.mk (ParameterQueue.mk 2 [] true) [] [] []).run
      [Op.pop 0, Op.pop 1, Op.setDone, Op.pop 2, Op.pop 0]).refused = [0, 1, 2, 0] :=
  pop_after_done_and_drained (Sys.mk (ParameterQueue.mk 2 [] true) [] [] []) ⟨7, 7, 7⟩ rfl rfl
    [Op.pop 0, Op.pop 1, Op.setDone, Op.pop 2, Op.pop 0] (by simp)

/-! ## Queue: FIFO pop -/

theorem ParameterQueue.pop_eq_false_iff (q q1 : ParameterQueue) (p out : EquationParams) :
    q.pop p = some (false, out, q1) ↔
      q.m_queue = [] ∧ q.m_done_flag = true ∧ out = p ∧ q1 = q := by
  cases hq : q.m_queue with
  | nil =>
    cases hd : q.m_done_flag with
    | true => rw [ParameterQueue.pop_nil_done _ _ hq hd]; simp [eq_comm]
    | false => rw [ParameterQueue.pop_nil_open _ _ hq hd]; simp
  | cons front rest => rw [ParameterQueue.pop_cons _ _ _ _ hq]; simp

/-- C4. FIFO pop, also while draining. For a queue with pending list
`front :: rest`, whatever the flag, pop is enabled, returns true, writes `front`
to the output parameter and leaves exactly `rest`; pop returns false only when
the pending list is empty and the flag is set (and then changes nothing). After
any schedule on a fresh queue the head of the pending list is the earliest
pushed item not yet delivered, and a pop hands that item to its caller. -/
theorem pop_is_fifo (q : ParameterQueue) (p : EquationParams) (cap : Nat) (ops : List Op)
    (c : Nat) :
    (∀ front rest, q.m_queue = front :: rest →
      q.pop p = some (true, front, { q with m_queue := rest }) ∧
      q.setDone.pop p = some (true, front, { q.setDone with m_queue := rest })) ∧
    (∀ out q1, q.pop p = some (false, out, q1) →
      q.m_queue = [] ∧ q.m_done_flag = true ∧ out = p ∧ q1 = q) ∧
    ((Sys.init cap).run ops).queue.m_queue.head?
      = ((Sys.init cap).run ops).pushed[((Sys.init cap).run ops).delivered.length]? ∧
    (∀ front rest, ((Sys.init cap).run ops).queue.m_queue = front :: rest →
      (((Sys.init cap).run ops).step (Op.pop c)).delivered
        = ((Sys.init cap).run ops).delivered ++ [(c, front)] ∧
      (((Sys.init cap).run ops).step (Op.pop c)).queue.m_queue = rest ∧
      ((Sys.init cap).run ops).pushed[((Sys.init cap).run ops).delivered.length]?
        = some front) := by
  have hcons := Sys.run_init_conserved cap ops
  unfold Sys.Conserved at hcons
  have hhead : ((Sys.init cap).run ops).queue.m_queue.head?
      = ((Sys.init cap).run ops).pushed[((Sys.init cap).run ops).delivered.length]? := by
    rw [← hcons, List.getElem?_append_right (by simp)]
    simp only [List.length_map, Nat.sub_self]
    cases ((Sys.init cap).run ops).queue.m_queue <;> simp
  refine ⟨?_, ?_, hhead, ?_⟩
  · intro front rest h
    exact ⟨ParameterQueue.pop_cons _ _ _ _ h, ParameterQueue.pop_cons _ _ _ _ h⟩
  · intro out q1 h
    exact (ParameterQueue.pop_eq_false_iff _ _ _ _).1 h
  · intro front rest h
    refine ⟨?_, ?_, ?_⟩
    · simp only [Sys.step]; rw [ParameterQueue.pop_cons _ _ _ _ h]
    · simp only [Sys.step]; rw [ParameterQueue.pop_cons _ _ _ _ h]
    · rw [← hhead, h]; rfl

/-- Witness for C4: a draining queue (flag set, two items pending) still hands
out its head. -/
theorem pop_is_fifo_witness :
    (ParameterQueue.mk 2 [⟨1, -3, 2⟩, ⟨0, 2, -4⟩] true).pop ⟨0, 0, 0⟩
      = some (true, ⟨1, -3, 2⟩, ParameterQueue.mk 2 [⟨0, 2, -4⟩] true) ∧
    (((Sys.init 2).run [Op.push ⟨1, -3, 2⟩, Op.push ⟨0, 2, -4⟩, Op.setDone]).step
      (Op.pop 5)).delivered = [(5, ⟨1, -3, 2⟩)] :=
  have h := pop_is_fifo (ParameterQueue.mk 2 [⟨1, -3, 2⟩, ⟨0, 2, -4⟩] true) ⟨0, 0, 0⟩ 2
    [Op.push ⟨1, -3, 2⟩, Op.push ⟨0, 2, -4⟩, Op.setDone] 5
  ⟨(h.1 ⟨1, -3, 2⟩ [⟨0, 2, -4⟩] rfl).1, (h.2.2.2 ⟨1, -3, 2⟩ [⟨0, 2, -4⟩] rfl).1⟩

/-! ## Queue: blocking condition of push -/

/-- C5, as stated, fails: after `push (1,-3,2)` and `setDone` on a fresh queue of
capacity 1 the flag is set and the queue is full, and a further push is blocked
instead of appending. -/
theorem push_after_done_on_full_queue_blocks :
    ((Sys.init 1).run [Op.push ⟨1, -3, 2⟩, Op.setDone]).queue
      = ParameterQueue.mk 1 [⟨1, -3, 2⟩] true ∧
    (ParameterQueue.mk 1 [⟨1, -3, 2⟩] true).push ⟨0, 2, -4⟩ = none ∧
    ¬ ((ParameterQueue.mk 1 [⟨1, -3, 2⟩] true).push ⟨0, 2, -4⟩ = none ↔
        ((ParameterQueue.mk 1 [⟨1, -3, 2⟩] true).m_queue.length
            = (ParameterQueue.mk 1 [⟨1, -3, 2⟩] true).m_max_queue_size ∧
          (ParameterQueue.mk 1 [⟨1, -3, 2⟩] true).m_done_flag = false)) := by
  refine ⟨rfl, rfl, ?_⟩
  intro h
  have := (h.1 rfl).2
  simp at this

/-- C5, amended. Push blocks exactly while the number of pending items is at
least the capacity, whether or not the flag is set; when the pending list is
within the capacity (as after every schedule on a fresh queue) that is exactly
while it equals the capacity. In every other state push is enabled and appends
the item at the tail, leaving the flag and the capacity as they were. -/
theorem push_blocks_iff_full (q : ParameterQueue) (x : EquationParams) :
    (q.push x = none ↔ q.m_max_queue_size ≤ q.m_queue.length) ∧
    (q.setDone.push x = none ↔ q.push x = none) ∧
    (q.m_queue.length ≤ q.m_max_queue_size →
      (q.push x = none ↔ q.m_queue.length = q.m_max_queue_size)) ∧
    (q.m_queue.length < q.m_max_queue_size →
      q.push x = some { q with m_queue := q.m_queue ++ [x] }) := by
  refine ⟨ParameterQueue.push_eq_none_iff q x, ?_, ?_, ?_⟩
  · rw [ParameterQueue.push_eq_none_iff, ParameterQueue.push_eq_none_iff]
    exact Iff.rfl
  · intro hle
    rw [ParameterQueue.push_eq_none_iff]
    omega
  · intro hlt
    exact (ParameterQueue.push_eq_some_iff _ _ _).2 ⟨hlt, rfl⟩

/-- Witness for amended C5: capacity 2 with one pending item. -/
theorem push_blocks_iff_full_witness :
    (ParameterQueue.mk 2 [⟨1, -3, 2⟩] false).push ⟨0, 2, -4⟩
      = some (ParameterQueue.mk 2 [⟨1, -3, 2⟩, ⟨0, 2, -4⟩] false) ∧
    ((ParameterQueue.mk 2 [⟨1, -3, 2⟩] false).push ⟨0, 2, -4⟩ = none ↔
      (ParameterQueue.mk 2 [⟨1, -3, 2⟩] false).m_queue.length
        = (ParameterQueue.mk 2 [⟨1, -3, 2⟩] false).m_max_queue_size) :=
  have h := push_blocks_iff_full (ParameterQueue.mk 2 [⟨1, -3, 2⟩] false) ⟨0, 2, -4⟩
  ⟨h.2.2.2 (by decide), h.2.2.1 (by decide)⟩

/-! ## Queue: the completion flag -/

/-- C6. setDone is idempotent, sets the flag and leaves the pending list and the
capacity unchanged; and no call changes a set flag back: after a completed push,
after a pop that returned, after setDone, and after any attempted step or
schedule of steps, a flag that was set is still set. -/
theorem setDone_idempotent_flag_monotone (q : ParameterQueue) (s : Sys) (ops : List Op) :
    q.setDone.setDone = q.setDone ∧
    q.setDone.m_done_flag = true ∧
    q.setDone.m_queue = q.m_queue ∧
    q.setDone.m_max_queue_size = q.m_max_queue_size ∧
    (∀ x q1, q.push x = some q1 → q1.m_done_flag = q.m_done_flag) ∧
    (∀ p r out q1, q.pop p = some (r, out, q1) → q1.m_done_flag = q.m_done_flag) ∧
    (s.queue.m_done_flag = true → (s.run ops).queue.m_done_flag = true) := by
  refine ⟨rfl, rfl, rfl, rfl, ?_, ?_, ?_⟩
  · intro x q1 h
    obtain ⟨-, rfl⟩ := (ParameterQueue.push_eq_some_iff _ _ _).1 h
    rfl
  · intro p r out q1 h
    cases hq : q.m_queue with
    | nil =>
      cases hd : q.m_done_flag with
      | true =>
        rw [ParameterQueue.pop_nil_done _ _ hq hd] at h
        simp only [Option.some.injEq, Prod.mk.injEq] at h
        rw [← h.2.2, hd]
      | false => rw [ParameterQueue.pop_nil_open _ _ hq hd] at h; simp at h
    | cons front rest =>
      rw [ParameterQueue.pop_cons _ _ _ _ hq] at h
      simp only [Option.some.injEq, Prod.mk.injEq] at h
      rw [← h.2.2]
  · intro hd
    induction ops generalizing s with
    | nil => exact hd
    | cons op ops ih =>
      rw [Sys.run_cons]
      apply ih
      cases op with
      | push x =>
        simp only [Sys.step]
        cases hp : s.queue.push x with
        | none => exact hd
        | some q1 =>
          obtain ⟨-, rfl⟩ := (ParameterQueue.push_eq_some_iff _ _ _).1 hp
          exact hd
      | pop c =>
        simp only [Sys.step]
        cases hq : s.queue.m_queue with
        | nil => rw [ParameterQueue.pop_nil_done _ _ hq hd]; exact hd
        | cons front rest => rw [ParameterQueue.pop_cons _ _ _ _ hq]; exact hd
      | setDone => rfl

/-- Witness for C6: a draining queue of capacity 2 under push, pop and setDone. -/
theorem setDone_idempotent_flag_monotone_witness :
    ((Sys.mk (ParameterQueue.mk 2 [⟨1, -3, 2⟩] true) [⟨1, -3, 2⟩] [] []).run
      [Op.push ⟨0, 2, -4⟩, Op.pop 0, Op.setDone, Op.pop 1, Op.pop 0]).queue.m_done_flag = true :=
  (setDone_idempotent_flag_monotone (ParameterQueue.mk 2 [⟨1, -3, 2⟩] true)
    (Sys.mk (ParameterQueue.mk 2 [⟨1, -3, 2⟩] true) [⟨1, -3, 2⟩] [] [])
    [Op.push ⟨0, 2, -4⟩, Op.pop 0, Op.setDone, Op.pop 1, Op.pop 0]).2.2.2.2.2.2 rfl

/-! ## Producer -/

theorem pushesOf_append (l1 l2 : List Event) : pushesOf (l1 ++ l2) = pushesOf l1 ++ pushesOf l2 := by
  induction l1 with
  | nil => rfl
  | cons e l1 ih => cases e <;> simp [pushesOf, ih]

theorem pushesOf_cerr (lines : List String) : pushesOf (lines.map Event.cerr) = [] := by
  induction lines with
  | nil => rfl
  | cons l lines ih => simpa [pushesOf] using ih

theorem mem_pushesOf (events : List Event) (x : EquationParams) :
    x ∈ pushesOf events ↔ Event.push x ∈ events := by
  induction events with
  | nil => simp [pushesOf]
  | cons e events ih => cases e <;> simp [pushesOf, ih]

theorem toNumber_of_convertToken_some (token : String) (v number : Int)
    (h : convertToken token = some v) : toNumber token number = (true, v, []) := by
  cases hs : stoll token.toList with
  | invalid_argument => simp only [convertToken, toNumber, hs] at h; simp at h
  | out_of_range => simp only [convertToken, toNumber, hs] at h; simp at h
  | ok value final_pos =>
    simp only [convertToken, toNumber, hs] at h ⊢
    by_cases hl : token.length = final_pos
    · simp only [hl, ne_eq, not_true_eq_false, if_false, if_true, Option.some.injEq] at h ⊢
      rw [h]
    · simp [hl] at h

theorem toNumber_of_convertToken_none (token : String) (number : Int)
    (h : convertToken token = none) : (toNumber token number).1 = false := by
  cases hs : stoll token.toList with
  | invalid_argument => simp only [toNumber, hs]
  | out_of_range => simp only [toNumber, hs]
  | ok value final_pos =>
    simp only [convertToken, toNumber, hs] at h ⊢
    by_cases hl : token.length = final_pos
    · simp [hl] at h
    · simp [hl]

theorem parseParametersLoop_step_ok (parameters : List String) (offset remaining i : Nat)
    (params : EquationParams) (v : Int)
    (h : convertToken (parameters.getD (offset + i) "") = some v) :
    parseParametersLoop parameters offset (remaining + 1) i params
      = parseParametersLoop parameters offset remaining (i + 1) (params.set i v) := by
  rw [parseParametersLoop, toNumber_of_convertToken_some _ v _ h]
  simp only [List.nil_append]

theorem parseParametersLoop_step_fail (parameters : List String) (offset remaining i : Nat)
    (params : EquationParams)
    (h : convertToken (parameters.getD (offset + i) "") = none) :
    (parseParametersLoop parameters offset (remaining + 1) i params).1 = false := by
  have hf := toNumber_of_convertToken_none _ (params.get i) h
  rw [parseParametersLoop]
  rcases ht : toNumber (parameters.getD (offset + i) "") (params.get i) with ⟨r, n, l⟩
  rw [ht] at hf
  simp only at hf
  subst hf
  rfl

theorem parseParameters_of_convertStride (parameters : List String) (i : Nat)
    (params : EquationParams) :
    (∀ t, convertStride parameters i = some t →
      parseParameters parameters (3 * i) params = (true, t, [])) ∧
    (convertStride parameters i = none →
      (parseParameters parameters (3 * i) params).1 = false) := by
  unfold convertStride parseParameters
  cases h0 : convertToken (parameters.getD (3 * i) "") with
  | none =>
    exact ⟨fun t ht => by simp at ht,
      fun _ => parseParametersLoop_step_fail _ _ _ _ _ (by simpa using h0)⟩
  | some a =>
    rw [parseParametersLoop_step_ok _ _ _ _ _ a (by simpa using h0)]
    cases h1 : convertToken (parameters.getD (3 * i + 1) "") with
    | none =>
      exact ⟨fun t ht => by simp at ht, fun _ => parseParametersLoop_step_fail _ _ _ _ _ h1⟩
    | some b =>
      rw [parseParametersLoop_step_ok _ _ _ _ _ b h1]
      cases h2 : convertToken (parameters.getD (3 * i + 2) "") with
      | none =>
        exact ⟨fun t ht => by simp at ht, fun _ => parseParametersLoop_step_fail _ _ _ _ _ h2⟩
      | some c =>
        rw [parseParametersLoop_step_ok _ _ _ _ _ c h2]
        refine ⟨fun t ht => ?_, fun hn => by simp at hn⟩
        simp only [Option.some.injEq] at ht
        subst ht
        rfl

theorem Producer.producerLoop_strides (parameters : List String) (n : Nat) :
    ∀ (fuel k : Nat) (params : EquationParams), n ≤ 3 * k + 3 * fuel →
      pushesOf (Producer.producerLoop parameters n fuel (3 * k) params).2.2
          = (List.range' k (n / 3 - k)).filterMap (convertStride parameters) ∧
        (3 * k ≤ n → (Producer.producerLoop parameters n fuel (3 * k) params).1 = 3 * (n / 3)) := by
  intro fuel
  induction fuel with
  | zero =>
    intro k params hn
    have h0 : n / 3 - k = 0 := by omega
    rw [h0]
    refine ⟨rfl, fun hk => ?_⟩
    show 3 * k = 3 * (n / 3)
    omega
  | succ fuel ih =>
    intro k params hn
    rw [Producer.producerLoop]
    by_cases hc : 3 * k + 3 ≤ n
    · rw [if_pos hc]
      have hk : n / 3 - k = (n / 3 - (k + 1)) + 1 := by omega
      have h3 : 3 * k + 3 = 3 * (k + 1) := by ring
      rw [hk, List.range'_succ, h3]
      obtain ⟨hsome, hnone⟩ := parseParameters_of_convertStride parameters k params
      cases hs : convertStride parameters k with
      | some t =>
        rw [hsome t hs]
        obtain ⟨ih1, ih2⟩ := ih (k + 1) t (by omega)
        refine ⟨?_, fun _ => ih2 (by omega)⟩
        simp only [List.map_nil, List.nil_append, pushesOf, List.filterMap_cons, hs]
        rw [ih1]
      | none =>
        have hf := hnone hs
        rcases hp : parseParameters parameters (3 * k) params with ⟨r, p1, l⟩
        rw [hp] at hf
        simp only at hf
        subst hf
        obtain ⟨ih1, ih2⟩ := ih (k + 1) p1 (by omega)
        refine ⟨?_, fun _ => ih2 (by omega)⟩
        simp only [List.filterMap_cons, hs, pushesOf_append, pushesOf_cerr, List.nil_append]
        rw [ih1]
    · rw [if_neg hc]
      have h0 : n / 3 - k = 0 := by omega
      rw [h0]
      refine ⟨rfl, fun hk => ?_⟩
      show 3 * k = 3 * (n / 3)
      omega

theorem Producer.producerLoop_no_setDone (parameters : List String) (n : Nat) :
    ∀ (fuel offset : Nat) (params : EquationParams),
      Event.setDone ∉ (Producer.producerLoop parameters n fuel offset params).2.2 := by
  intro fuel
  induction fuel with
  | zero => intro offset params; simp [Producer.producerLoop]
  | succ fuel ih =>
    intro offset params
    rw [Producer.producerLoop]
    by_cases hc : offset + 3 ≤ n
    · rw [if_pos hc]
      rcases hp : parseParameters parameters offset params with ⟨r, p1, l⟩
      cases r with
      | true =>
        have := ih (offset + 3) p1
        simp only [List.mem_append, List.mem_map, List.mem_cons, not_or]
        exact ⟨by simp, by simp, this⟩
      | false =>
        have := ih (offset + 3) p1
        simp only [List.mem_append, List.mem_map, not_or]
        exact ⟨by simp, this⟩
    · rw [if_neg hc]; simp

/-- C7. Producer completion signal. For every token sequence (empty, with a
partial last stride, with any number of malformed strides), the events of
`Producer::producer` in program order contain setDone exactly once: they split
as the events of the stride loop, which hold every push and no setDone, then
setDone, then at most the one error line, with no push and no setDone after
it. -/
theorem producer_setDone_once_after_pushes (parameters : List String) (parameter_count : Nat)
    (params : EquationParams) :
    (Producer.producer parameters parameter_count params).count Event.setDone = 1 ∧
    ∃ before after, Producer.producer parameters parameter_count params
        = before ++ Event.setDone :: after ∧
      Event.setDone ∉ before ∧ Event.setDone ∉ after ∧
      (∀ x, Event.push x ∉ after) ∧
      pushesOf before = pushesOf (Producer.producer parameters parameter_count params) := by
  have hno := Producer.producerLoop_no_setDone parameters parameter_count parameter_count 0 params
  unfold Producer.producer
  rcases hl : Producer.producerLoop parameters parameter_count parameter_count 0 params
    with ⟨offset, p1, events⟩
  rw [hl] at hno
  simp only at hno ⊢
  refine ⟨?_, events, _, rfl, hno, ?_, ?_, ?_⟩
  · rw [List.count_append, List.count_eq_zero_of_not_mem hno, List.count_cons_self]
    split <;> simp [List.count_cons]
  · split <;> simp
  · intro x; split <;> simp
  · rw [pushesOf_append]
    split <;> simp [pushesOf]

/-- C8. Producer stride processing. For every token sequence of length n, the
triples pushed by the producer are, in push order, the conversions of the
strides (tokens 3i, 3i+1, 3i+2) for i = 0 .. n/3 - 1 in which all three tokens
convert; a stride with a token that does not convert contributes nothing and
the following strides are still processed (as for the tokens 1 -3 x 0 2 -4 7,
where only (0, 2, -4) is pushed). -/
theorem producer_pushes_converted_strides (tokens : List String) (params : EquationParams) :
    pushesOf (Producer.producer tokens tokens.length params) = convertedStrides tokens ∧
    pushesOf (Producer.producer ["1", "-3", "x", "0", "2", "-4", "7"] 7 params)
      = [⟨0, 2, -4⟩] := by
  have main : ∀ tokens : List String,
      pushesOf (Producer.producer tokens tokens.length params) = convertedStrides tokens := by
    intro tokens
    obtain ⟨h, -⟩ := Producer.producerLoop_strides tokens tokens.length tokens.length 0 params
      (by omega)
    unfold Producer.producer convertedStrides
    rcases hl : Producer.producerLoop tokens tokens.length tokens.length 0 params
      with ⟨offset, p1, events⟩
    rw [hl] at h
    simp only [Nat.mul_zero, Nat.sub_zero] at h ⊢
    rw [pushesOf_append, h, List.range_eq_range']
    split <;> simp [pushesOf]
  refine ⟨main tokens, ?_⟩
  have h := main ["1", "-3", "x", "0", "2", "-4", "7"]
  rw [show (["1", "-3", "x", "0", "2", "-4", "7"] : List String).length = 7 from rfl] at h
  rw [h]
  decide

/-! ## Solver -/

theorem wrap64_eq_self (x : Int) (h : inInt64 x) : wrap64 x = x := by
  unfold inInt64 at h
  unfold wrap64
  omega

theorem discriminant64_eq (a b c : Int) (h : discriminantExact a b c) :
    discriminant64 a b c = b * b - 4 * a * c := by
  obtain ⟨h1, h2, h3, h4⟩ := h
  unfold discriminant64
  rw [wrap64_eq_self _ h1, wrap64_eq_self _ h2, wrap64_eq_self _ h3, wrap64_eq_self _ h4]

theorem solveEquation_linear {D : Type} [DivisionRing D] (sqrt : D → D) (b c : Int) :
    solveEquation sqrt ⟨0, b, c⟩
      = { first_root := solveLinearEquation b c, second_root := none } := by
  simp [solveEquation, isLinearEquation, EquationParams.get]

theorem solveEquation_quadratic {D : Type} [DivisionRing D] (sqrt : D → D) (a b c : Int)
    (ha : a ≠ 0) :
    solveEquation sqrt ⟨a, b, c⟩ = solveQuadraticEquation sqrt a b c := by
  simp [solveEquation, isLinearEquation, EquationParams.get, ha]

theorem solveQuadraticEquation_count {D : Type} [DivisionRing D] (sqrt : D → D) (a b c : Int) :
    (solveQuadraticEquation sqrt a b c).count
      = if 0 < discriminant64 a b c then 2 else if discriminant64 a b c = 0 then 1 else 0 := by
  unfold solveQuadraticEquation
  by_cases h1 : 0 < discriminant64 a b c
  · simp [h1, roots_t.count]
  · by_cases h2 : discriminant64 a b c = 0
    · simp [h2, roots_t.count]
    · simp [h1, h2, roots_t.count]

/-- C9, as stated, fails: for (a, b, c) = (1, 2^32, 0), three values of
`int64_t` with a != 0 and b^2 - 4ac = 2^64 > 0, `b * b` wraps to 0 and
`solveEquation` returns one root, not two. -/
theorem solveEquation_root_count_fails_on_overflow :
    inInt64 1 ∧ inInt64 4294967296 ∧ inInt64 0 ∧ (1 : Int) ≠ 0 ∧
    (0 : Int) < 4294967296 * 4294967296 - 4 * 1 * 0 ∧
    discriminant64 1 4294967296 0 = 0 ∧
    (solveEquation Real.sqrt ⟨1, 4294967296, 0⟩).count = 1 ∧
    (solveEquation Real.sqrt ⟨1, 4294967296, 0⟩).count ≠ 2 := by
  decide

/-- C9, amended. With d = b^2 - 4ac: if a != 0 and no 64-bit operation in the
computation of `b * b - 4 * a * c` overflows, the result has two roots when
d > 0, exactly one when d = 0 and none when d < 0; whether or not it overflows,
the count is given in the same way by the sign of the 64-bit discriminant; if
a = 0 the result has exactly one root when b != 0 and none when b = 0, whatever
c. (1,2,5) and (0,0,5) give no roots, (0,2,-4) gives one root. -/
theorem solveEquation_root_count {D : Type} [DivisionRing D] (sqrt : D → D) (a b c : Int) :
    (a ≠ 0 → discriminantExact a b c →
      (0 < b * b - 4 * a * c → (solveEquation sqrt ⟨a, b, c⟩).count = 2) ∧
      (b * b - 4 * a * c = 0 → (solveEquation sqrt ⟨a, b, c⟩).count = 1) ∧
      (b * b - 4 * a * c < 0 → (solveEquation sqrt ⟨a, b, c⟩).count = 0)) ∧
    (a ≠ 0 → (solveEquation sqrt ⟨a, b, c⟩).count
      = if 0 < discriminant64 a b c then 2 else if discriminant64 a b c = 0 then 1 else 0) ∧
    (a = 0 → b ≠ 0 → (solveEquation sqrt ⟨a, b, c⟩).count = 1) ∧
    (a = 0 → b = 0 → (solveEquation sqrt ⟨a, b, c⟩).count = 0) ∧
    (solveEquation sqrt ⟨1, 2, 5⟩).count = 0 ∧
    (solveEquation sqrt ⟨0, 0, 5⟩).count = 0 ∧
    (solveEquation sqrt ⟨0, 2, -4⟩).count = 1 := by
  refine ⟨?_, ?_, ?_, ?_, ?_, ?_, ?_⟩
  · intro ha hex
    rw [solveEquation_quadratic sqrt a b c ha, solveQuadraticEquation_count,
      discriminant64_eq a b c hex]
    refine ⟨fun h => by simp [h], fun h => by simp [h], fun h => ?_⟩
    have h1 : ¬ 0 < b * b - 4 * a * c := by omega
    have h2 : ¬ b * b - 4 * a * c = 0 := by omega
    simp [h1, h2]
  · intro ha
    rw [solveEquation_quadratic sqrt a b c ha, solveQuadraticEquation_count]
  · intro ha hb
    subst ha
    rw [solveEquation_linear]
    simp [solveLinearEquation, hb, roots_t.count]
  · intro ha hb
    subst ha
    rw [solveEquation_linear]
    simp [solveLinearEquation, hb, roots_t.count]
  · rw [solveEquation_quadratic sqrt 1 2 5 (by decide), solveQuadraticEquation_count]
    decide
  · rw [solveEquation_linear]
    simp [solveLinearEquation, roots_t.count]
  · rw [solveEquation_linear]
    simp [solveLinearEquation, roots_t.count]

/-- Witness for amended C9: (1, -3, 2) has d = 1 > 0 and two roots. -/
theorem solveEquation_root_count_witness :
    (solveEquation Real.sqrt ⟨1, -3, 2⟩).count = 2 :=
  ((solveEquation_root_count Real.sqrt 1 (-3) 2).1 (by decide) (by decide)).1 (by decide)

/-- C10. Root values and order of `solveEquation` in exact real arithmetic
(`D` the real numbers, `sqrt` the real square root), when the 64-bit operations
on the coefficients do not overflow. If a = 0 and b != 0 the single root is
-c/b. If a != 0 and d = b^2 - 4ac = 0 the single root is -b/(2a). If a != 0 and
d > 0 the first root is (-b + sqrt d)/(2a) and the second is
(-b - sqrt d)/(2a). (1, -3, 2) gives first root 2 and second root 1;
(0, 2, -4) gives the root 2. -/
theorem solveEquation_root_values (a b c : Int) :
    (a = 0 → b ≠ 0 → inInt64 (-c) →
      (solveEquation Real.sqrt ⟨a, b, c⟩).first_root = some (-(c : ℝ) / (b : ℝ)) ∧
      (solveEquation Real.sqrt ⟨a, b, c⟩).second_root = none) ∧
    (a ≠ 0 → discriminantExact a b c → inInt64 (-b) → b * b - 4 * a * c = 0 →
      (solveEquation Real.sqrt ⟨a, b, c⟩).first_root = some (-(b : ℝ) / (2 * (a : ℝ))) ∧
      (solveEquation Real.sqrt ⟨a, b, c⟩).second_root = none) ∧
    (a ≠ 0 → discriminantExact a b c → inInt64 (-b) → 0 < b * b - 4 * a * c →
      (solveEquation Real.sqrt ⟨a, b, c⟩).first_root
        = some ((-(b : ℝ) + Real.sqrt ((b : ℝ) ^ 2 - 4 * (a : ℝ) * (c : ℝ))) / (2 * (a : ℝ))) ∧
      (solveEquation Real.sqrt ⟨a, b, c⟩).second_root
        = some ((-(b : ℝ) - Real.sqrt ((b : ℝ) ^ 2 - 4 * (a : ℝ) * (c : ℝ))) / (2 * (a : ℝ)))) ∧
    (solveEquation Real.sqrt ⟨1, -3, 2⟩).first_root = some 2 ∧
    (solveEquation Real.sqrt ⟨1, -3, 2⟩).second_root = some 1 ∧
    (solveEquation Real.sqrt ⟨0, 2, -4⟩).first_root = some 2 ∧
    (solveEquation Real.sqrt ⟨0, 2, -4⟩).second_root = none := by
  have hquad : ∀ a b c : Int, a ≠ 0 → discriminantExact a b c → inInt64 (-b) →
      0 < b * b - 4 * a * c →
      (solveEquation Real.sqrt ⟨a, b, c⟩).first_root
        = some ((-(b : ℝ) + Real.sqrt ((b : ℝ) ^ 2 - 4 * (a : ℝ) * (c : ℝ))) / (2 * (a : ℝ))) ∧
      (solveEquation Real.sqrt ⟨a, b, c⟩).second_root
        = some ((-(b : ℝ) - Real.sqrt ((b : ℝ) ^ 2 - 4 * (a : ℝ) * (c : ℝ))) / (2 * (a : ℝ))) := by
    intro a b c ha hex hb hd
    rw [solveEquation_quadratic Real.sqrt a b c ha]
    unfold solveQuadraticEquation
    rw [discriminant64_eq a b c hex, wrap64_eq_self _ hb]
    have hcast : ((b * b - 4 * a * c : Int) : ℝ) = (b : ℝ) ^ 2 - 4 * (a : ℝ) * (c : ℝ) := by
      push_cast; ring
    simp only [gt_iff_lt, hd, if_true, hcast, Int.cast_neg]
    exact ⟨trivial, trivial⟩
  have hlin : ∀ b c : Int, b ≠ 0 → inInt64 (-c) →
      (solveEquation Real.sqrt ⟨0, b, c⟩).first_root = some (-(c : ℝ) / (b : ℝ)) ∧
      (solveEquation Real.sqrt ⟨0, b, c⟩).second_root = none := by
    intro b c hb hc
    rw [solveEquation_linear]
    simp only [solveLinearEquation, ne_eq, hb, not_false_eq_true, if_true, wrap64_eq_self _ hc,
      Int.cast_neg]
    exact ⟨trivial, trivial⟩
  refine ⟨?_, ?_, hquad a b c, ?_, ?_, ?_, ?_⟩
  · intro ha hb hc
    subst ha
    exact hlin b c hb hc
  · intro ha hex hb hd
    rw [solveEquation_quadratic Real.sqrt a b c ha]
    unfold solveQuadraticEquation
    rw [discriminant64_eq a b c hex, wrap64_eq_self _ hb]
    simp only [gt_iff_lt, hd, lt_self_iff_false, if_false, if_true, Int.cast_neg]
    exact ⟨trivial, trivial⟩
  · rw [(hquad 1 (-3) 2 (by decide) (by decide) (by decide) (by decide)).1]
    have h1 : ((-3 : Int) : ℝ) ^ 2 - 4 * ((1 : Int) : ℝ) * ((2 : Int) : ℝ) = 1 := by
      push_cast; norm_num
    rw [h1, Real.sqrt_one]
    congr 1
    push_cast; norm_num
  · rw [(hquad 1 (-3) 2 (by decide) (by decide) (by decide) (by decide)).2]
    have h1 : ((-3 : Int) : ℝ) ^ 2 - 4 * ((1 : Int) : ℝ) * ((2 : Int) : ℝ) = 1 := by
      push_cast; norm_num
    rw [h1, Real.sqrt_one]
    congr 1
    push_cast; norm_num
  · rw [(hlin 2 (-4) (by decide) (by decide)).1]
    congr 1
    push_cast; norm_num
  · exact (hlin 2 (-4) (by decide) (by decide)).2

/-- Witness for C10: the linear case (0, 2, -4) and the two-root case (1, -3, 2). -/
theorem solveEquation_root_values_witness :
    (solveEquation Real.sqrt ⟨0, 2, -4⟩).first_root
      = some (-(((-4 : Int)) : ℝ) / ((2 : Int) : ℝ)) ∧
    (solveEquation Real.sqrt ⟨1, -3, 2⟩).first_root
      = some ((-(((-3 : Int)) : ℝ) + Real.sqrt ((((-3 : Int)) : ℝ) ^ 2
          - 4 * ((1 : Int) : ℝ) * ((2 : Int) : ℝ))) / (2 * ((1 : Int) : ℝ))) :=
  ⟨((solveEquation_root_values 0 2 (-4)).1 rfl (by decide) (by decide)).1,
   ((solveEquation_root_values 1 (-3) 2).2.2.1 (by decide) (by decide) (by decide)
      (by decide)).1⟩

/-! ## Consumer: the extremum -/

theorem extremumOf_eq (a b c : Int) (ha : a ≠ 0) (h2a : inInt64 (2 * a)) (hb : inInt64 (-b)) :
    (extremumOf ⟨a, b, c⟩ : Option ℝ) = some (-(b : ℝ) / (2 * (a : ℝ))) := by
  have h2 : (2 : Int) * a ≠ 0 := by omega
  simp only [extremumOf, solveLinearEquation, EquationParams.get, wrap64_eq_self _ h2a,
    wrap64_eq_self _ hb, ne_eq, h2, not_false_eq_true, if_true]
  push_cast
  rfl

theorem consumerBody_linear {D : Type} [DivisionRing D] (sqrt : D → D) (showDouble : D → String)
    (b c : Int) :
    consumerBody sqrt showDouble ⟨0, b, c⟩
      = some (outputResult showDouble ⟨0, b, c⟩ (solveEquation sqrt ⟨0, b, c⟩) 0) := by
  simp [consumerBody, isLinearEquation, EquationParams.get]

theorem consumerBody_quadratic {D : Type} [DivisionRing D] (sqrt : D → D)
    (showDouble : D → String) (a b c : Int) (ha : a ≠ 0) :
    consumerBody sqrt showDouble ⟨a, b, c⟩
      = (extremumOf ⟨a, b, c⟩ : Option D).map
          (outputResult showDouble ⟨a, b, c⟩ (solveEquation sqrt ⟨a, b, c⟩)) := by
  have hl : (!isLinearEquation ⟨a, b, c⟩) = true := by
    simp [isLinearEquation, EquationParams.get, ha]
  unfold consumerBody
  simp only [hl, if_true]
  cases (extremumOf ⟨a, b, c⟩ : Option D) <;> rfl

/-- C11, as stated, fails on 64-bit overflow. For (2^62, 1, 0) the product
`2 * a` wraps to -2^63 and the extremum returned is 1/2^63, not
-b/(2a) = -1/2^63; for (1, -2^63, 0) the negation `-b` wraps and the extremum
returned is -2^62, not 2^62; for (-2^63, 0, 0) the product `2 * a` wraps to 0
and no value is returned. -/
theorem extremum_fails_on_overflow :
    inInt64 4611686018427387904 ∧ inInt64 (-9223372036854775808) ∧
    (extremumOf ⟨4611686018427387904, 1, 0⟩ : Option ℝ) = some (1 / 9223372036854775808) ∧
    (1 / 9223372036854775808 : ℝ) ≠ -(1 : ℝ) / (2 * 4611686018427387904) ∧
    (extremumOf ⟨1, -9223372036854775808, 0⟩ : Option ℝ) = some (-4611686018427387904) ∧
    (-4611686018427387904 : ℝ) ≠ -(-9223372036854775808 : ℝ) / (2 * 1) ∧
    (extremumOf ⟨-9223372036854775808, 0, 0⟩ : Option ℝ) = none := by
  refine ⟨by decide, by decide, ?_, by norm_num, ?_, by norm_num, ?_⟩
  · have h1 : wrap64 (2 * 4611686018427387904) = -9223372036854775808 := by decide
    have h2 : wrap64 (-1) = -1 := by decide
    simp only [extremumOf, solveLinearEquation, EquationParams.get, h1, h2]
    norm_num
  · have h1 : wrap64 (2 * 1) = 2 := by decide
    have h2 : wrap64 (- -9223372036854775808) = -9223372036854775808 := by decide
    simp only [extremumOf, solveLinearEquation, EquationParams.get, h1, h2]
    norm_num
  · have h1 : wrap64 (2 * -9223372036854775808) = 0 := by decide
    simp only [extremumOf, solveLinearEquation, EquationParams.get, h1]
    simp

/-- C11, amended. For every triple (a, b, c) with a != 0 for which `2 * a` and
`-b` do not overflow in 64 bits, the extremum computation
`solveLinearEquation(2 * a, b)` returns a value, that value is -b/(2a) in exact
real arithmetic, and the loop body of the consumer writes its line without
raising an error; for a = 0 the loop body writes its line as well. (1,-3,2)
gives 1.5 and (1,2,5) gives -1. -/
theorem extremum_computable_without_overflow (a b c : Int) (showDouble : ℝ → String) :
    (a ≠ 0 → inInt64 (2 * a) → inInt64 (-b) →
      (extremumOf ⟨a, b, c⟩ : Option ℝ) = some (-(b : ℝ) / (2 * (a : ℝ))) ∧
      consumerBody Real.sqrt showDouble ⟨a, b, c⟩
        = some (outputResult showDouble ⟨a, b, c⟩ (solveEquation Real.sqrt ⟨a, b, c⟩)
            (-(b : ℝ) / (2 * (a : ℝ))))) ∧
    (a = 0 → consumerBody Real.sqrt showDouble ⟨a, b, c⟩
        = some (outputResult showDouble ⟨a, b, c⟩ (solveEquation Real.sqrt ⟨a, b, c⟩) 0)) ∧
    (extremumOf ⟨1, -3, 2⟩ : Option ℝ) = some 1.5 ∧
    (extremumOf ⟨1, 2, 5⟩ : Option ℝ) = some (-1) := by
  refine ⟨?_, ?_, ?_, ?_⟩
  · intro ha h2a hb
    have he := extremumOf_eq a b c ha h2a hb
    refine ⟨he, ?_⟩
    rw [consumerBody_quadratic Real.sqrt showDouble a b c ha, he]
    rfl
  · intro ha
    subst ha
    exact consumerBody_linear Real.sqrt showDouble b c
  · rw [extremumOf_eq 1 (-3) 2 (by decide) (by decide) (by decide)]
    congr 1
    push_cast; norm_num
  · rw [extremumOf_eq 1 2 5 (by decide) (by decide) (by decide)]
    congr 1
    push_cast; norm_num

/-- Witness for amended C11: the triple (1, -3, 2). -/
theorem extremum_computable_without_overflow_witness :
    (extremumOf ⟨1, -3, 2⟩ : Option ℝ) = some (-(((-3 : Int)) : ℝ) / (2 * ((1 : Int) : ℝ))) :=
  ((extremum_computable_without_overflow 1 (-3) 2 (fun _ => "")).1 (by decide) (by decide)
    (by decide)).1

/-! ## Producer: the error stream -/

theorem cerrOf_append (l1 l2 : List Event) : cerrOf (l1 ++ l2) = cerrOf l1 ++ cerrOf l2 := by
  induction l1 with
  | nil => rfl
  | cons e l1 ih => cases e <;> simp [cerrOf, ih]

theorem cerrOf_map_cerr (lines : List String) : cerrOf (lines.map Event.cerr) = lines := by
  induction lines with
  | nil => rfl
  | cons l lines ih => simp [cerrOf, ih]

theorem mem_cerrOf (events : List Event) (line : String) :
    line ∈ cerrOf events ↔ Event.cerr line ∈ events := by
  induction events with
  | nil => simp [cerrOf]
  | cons e events ih => cases e <;> simp [cerrOf, ih]

theorem toNumber_fail_lines (token : String) (number : Int) (h : convertToken token = none) :
    ∃ d, d ∈ diagnosticsOf token ∧ (toNumber token number).1 = false ∧
      (toNumber token number).2.2 = [d] := by
  cases hs : stoll token.toList with
  | invalid_argument =>
    exact ⟨"\x27" ++ token ++ "\x27 can\x27t be converted to an integer value",
      by simp [diagnosticsOf], by simp only [toNumber, hs], by simp only [toNumber, hs]⟩
  | out_of_range =>
    exact ⟨"\x27" ++ token ++ "\x27 value is out of range",
      by simp [diagnosticsOf], by simp only [toNumber, hs], by simp only [toNumber, hs]⟩
  | ok value final_pos =>
    simp only [convertToken, toNumber, hs] at h ⊢
    by_cases hl : token.length = final_pos
    · simp [hl] at h
    · exact ⟨"\x27" ++ token ++ "\x27 can\x27t be fully converted to an integer",
        by simp [diagnosticsOf], by simp [hl], by simp [hl]⟩

theorem outputError_three (parameters : List String) (i : Nat) :
    outputError parameters (3 * i) 3 "failed to convert parameters to integers"
      = failedStrideLine parameters i := by
  simp [outputError, outputErrorRest, failedStrideLine, String.append_assoc]

theorem parseParametersLoop_step_fail_lines (parameters : List String) (i remaining j : Nat)
    (params : EquationParams)
    (h : convertToken (parameters.getD (3 * i + j) "") = none) :
    ∃ d, d ∈ diagnosticsOf (parameters.getD (3 * i + j) "") ∧
      (parseParametersLoop parameters (3 * i) (remaining + 1) j params).2.2
        = [d, failedStrideLine parameters i] := by
  obtain ⟨d, hd, hf, hl⟩ := toNumber_fail_lines _ (params.get j) h
  refine ⟨d, hd, ?_⟩
  rw [parseParametersLoop]
  rcases ht : toNumber (parameters.getD (3 * i + j) "") (params.get j) with ⟨r, n, l⟩
  rw [ht] at hf hl
  simp only at hf hl
  subst hf
  subst hl
  simp only [List.singleton_append, outputError_three]

/-- The lines written for a stride with a token that does not convert: the
diagnostic of the first such token, then the line of the stride. -/
theorem parseParameters_lines_of_malformed (parameters : List String) (i : Nat)
    (params : EquationParams) (h : convertStride parameters i = none) :
    ∃ j d, j < 3 ∧ convertToken (parameters.getD (3 * i + j) "") = none ∧
      (∀ k, k < j → convertToken (parameters.getD (3 * i + k) "") ≠ none) ∧
      d ∈ diagnosticsOf (parameters.getD (3 * i + j) "") ∧
      (parseParameters parameters (3 * i) params).2.2 = [d, failedStrideLine parameters i] := by
  unfold convertStride at h
  unfold parseParameters
  cases h0 : convertToken (parameters.getD (3 * i) "") with
  | none =>
    obtain ⟨d, hd, hl⟩ := parseParametersLoop_step_fail_lines parameters i 2 0 params h0
    exact ⟨0, d, by omega, h0, fun k hk => by omega, hd, hl⟩
  | some a =>
    rw [parseParametersLoop_step_ok _ _ _ _ _ a (by simpa using h0)]
    cases h1 : convertToken (parameters.getD (3 * i + 1) "") with
    | none =>
      obtain ⟨d, hd, hl⟩ := parseParametersLoop_step_fail_lines parameters i 1 1 _ h1
      refine ⟨1, d, by omega, h1, fun k hk => ?_, hd, hl⟩
      have : k = 0 := by omega
      subst this
      rw [Nat.add_zero, h0]
      exact Option.some_ne_none a
    | some b =>
      rw [parseParametersLoop_step_ok _ _ _ _ _ b h1]
      cases h2 : convertToken (parameters.getD (3 * i + 2) "") with
      | none =>
        obtain ⟨d, hd, hl⟩ := parseParametersLoop_step_fail_lines parameters i 0 2 _ h2
        refine ⟨2, d, by omega, h2, fun k hk => ?_, hd, hl⟩
        have : k = 0 ∨ k = 1 := by omega
        rcases this with rfl | rfl
        · rw [Nat.add_zero, h0]
          exact Option.some_ne_none a
        · rw [h1]
          exact Option.some_ne_none b
      | some c =>
        rw [h0, h1, h2] at h
        exact absurd h (Option.some_ne_none _)

theorem toNumber_lines_indep (token : String) (n m : Int) :
    (toNumber token n).2.2 = (toNumber token m).2.2 := by
  cases hs : stoll token.toList with
  | invalid_argument => simp only [toNumber, hs]
  | out_of_range => simp only [toNumber, hs]
  | ok value final_pos =>
    simp only [toNumber, hs]

theorem parseParametersLoop_fail_lines_eq (parameters : List String) (offset remaining i : Nat)
    (params : EquationParams)
    (h : convertToken (parameters.getD (offset + i) "") = none) :
    (parseParametersLoop parameters offset (remaining + 1) i params).2.2
      = (toNumber (parameters.getD (offset + i) "") 0).2.2
          ++ [outputError parameters offset 3 "failed to convert parameters to integers"] := by
  have hf := toNumber_of_convertToken_none _ (params.get i) h
  have hi := toNumber_lines_indep (parameters.getD (offset + i) "") (params.get i) 0
  rw [parseParametersLoop]
  rcases ht : toNumber (parameters.getD (offset + i) "") (params.get i) with ⟨r, n, l⟩
  rw [ht] at hf hi
  simp only at hf hi
  subst hf
  rw [← hi]

theorem parseParametersLoop_lines_indep (parameters : List String) (offset : Nat) :
    ∀ (remaining i : Nat) (p1 p2 : EquationParams),
      (parseParametersLoop parameters offset remaining i p1).2.2
        = (parseParametersLoop parameters offset remaining i p2).2.2 := by
  intro remaining
  induction remaining with
  | zero => intro i p1 p2; rfl
  | succ remaining ih =>
    intro i p1 p2
    cases h : convertToken (parameters.getD (offset + i) "") with
    | none =>
      rw [parseParametersLoop_fail_lines_eq _ _ _ _ p1 h,
        parseParametersLoop_fail_lines_eq _ _ _ _ p2 h]
    | some v =>
      rw [parseParametersLoop_step_ok _ _ _ _ p1 v h, parseParametersLoop_step_ok _ _ _ _ p2 v h]
      exact ih _ _ _

theorem parseParameters_lines_eq (parameters : List String) (i : Nat)
    (params : EquationParams) :
    (parseParameters parameters (3 * i) params).2.2 = strideErrorLines parameters i :=
  parseParametersLoop_lines_indep parameters (3 * i) 3 0 params _

theorem Producer.producerLoop_cerr (parameters : List String) (n : Nat) :
    ∀ (fuel k : Nat) (params : EquationParams), n ≤ 3 * k + 3 * fuel →
      cerrOf (Producer.producerLoop parameters n fuel (3 * k) params).2.2
        = (List.range' k (n / 3 - k)).flatMap (strideErrorLines parameters) := by
  intro fuel
  induction fuel with
  | zero =>
    intro k params hn
    have h0 : n / 3 - k = 0 := by omega
    rw [h0]
    rfl
  | succ fuel ih =>
    intro k params hn
    rw [Producer.producerLoop]
    by_cases hc : 3 * k + 3 ≤ n
    · rw [if_pos hc]
      have hk : n / 3 - k = (n / 3 - (k + 1)) + 1 := by omega
      have h3 : 3 * k + 3 = 3 * (k + 1) := by ring
      rw [hk, List.range'_succ, h3, List.flatMap_cons]
      have hlines := parseParameters_lines_eq parameters k params
      rcases hp : parseParameters parameters (3 * k) params with ⟨r, p1, l⟩
      rw [hp] at hlines
      simp only at hlines
      subst hlines
      have ih1 := ih (k + 1) p1 (by omega)
      cases r with
      | true =>
        simp only [cerrOf_append, cerrOf_map_cerr, cerrOf]
        rw [ih1]
      | false =>
        simp only [cerrOf_append, cerrOf_map_cerr]
        rw [ih1]
    · rw [if_neg hc]
      have h0 : n / 3 - k = 0 := by omega
      rw [h0]
      rfl

theorem Producer.producer_eq (tokens : List String) (params : EquationParams) :
    Producer.producer tokens tokens.length params
      = (Producer.producerLoop tokens tokens.length tokens.length 0 params).2.2
          ++ Event.setDone :: (trailingReport tokens).map Event.cerr := by
  obtain ⟨-, hoff⟩ := Producer.producerLoop_strides tokens tokens.length tokens.length 0 params
    (by omega)
  have hoff := hoff (by omega)
  unfold Producer.producer trailingReport unprocessedMessage
  rcases hl : Producer.producerLoop tokens tokens.length tokens.length 0 params
    with ⟨offset, p1, events⟩
  rw [hl] at hoff
  simp only at hoff ⊢
  subst hoff
  congr 2
  have h3 : tokens.length % 3 = 0 ∨ tokens.length % 3 = 1 ∨ tokens.length % 3 = 2 := by omega
  rcases h3 with h | h | h
  · have h1 : ¬ 3 * (tokens.length / 3) < tokens.length := by omega
    simp [h, h1]
  · have h1 : 3 * (tokens.length / 3) < tokens.length := by omega
    have h2 : tokens.length - 3 * (tokens.length / 3) = 1 := by omega
    have h4 : 3 * (tokens.length / 3) = tokens.length - 1 := by omega
    rw [if_pos h1, if_pos h, h2, h4]
    simp [outputError, outputErrorRest, String.append_assoc]
  · have h1 : 3 * (tokens.length / 3) < tokens.length := by omega
    have h2 : tokens.length - 3 * (tokens.length / 3) = 2 := by omega
    have h4 : 3 * (tokens.length / 3) = tokens.length - 2 := by omega
    have h5 : tokens.length - 2 + 1 = tokens.length - 1 := by omega
    have h6 : ¬ tokens.length % 3 = 1 := by omega
    rw [if_pos h1, if_neg h6, if_pos h, h2, h4]
    simp [outputError, outputErrorRest, String.append_assoc, h5]

theorem Producer.producer_cerr (tokens : List String) (params : EquationParams) :
    cerrOf (Producer.producer tokens tokens.length params)
      = (List.range (tokens.length / 3)).flatMap (strideErrorLines tokens)
          ++ trailingReport tokens := by
  rw [Producer.producer_eq, cerrOf_append]
  have h := Producer.producerLoop_cerr tokens tokens.length tokens.length 0 params (by omega)
  simp only [Nat.mul_zero, Nat.sub_zero] at h
  rw [h, List.range_eq_range']
  have : cerrOf (Event.setDone :: (trailingReport tokens).map Event.cerr)
      = trailingReport tokens := by
    simp [cerrOf, cerrOf_map_cerr]
  rw [this]

theorem getLast?_data_append (s t : String) (c : Char) (h : t.data.getLast? = some c) :
    (s ++ t).data.getLast? = some c := by
  rw [String.data_append, List.getLast?_append, h]
  rfl

theorem getLast?_of_report_suffix (line : String)
    (h : unprocessedMessage.data <:+ line.data) : line.data.getLast? = some '!' := by
  obtain ⟨t, ht⟩ := h
  have h1 : unprocessedMessage.data.getLast? = some '!' := by decide
  rw [← ht, List.getLast?_append, h1]
  rfl

theorem strideErrorLines_cases (tokens : List String) (i : Nat) :
    (∃ t, convertStride tokens i = some t ∧ strideErrorLines tokens i = []) ∨
    (convertStride tokens i = none ∧
      ∃ j d, j < 3 ∧ convertToken (tokens.getD (3 * i + j) "") = none ∧
        (∀ k, k < j → convertToken (tokens.getD (3 * i + k) "") ≠ none) ∧
        d ∈ diagnosticsOf (tokens.getD (3 * i + j) "") ∧
        strideErrorLines tokens i = [d, failedStrideLine tokens i]) := by
  cases hs : convertStride tokens i with
  | some t =>
    left
    refine ⟨t, rfl, ?_⟩
    unfold strideErrorLines
    rw [(parseParameters_of_convertStride tokens i _).1 t hs]
  | none =>
    right
    exact ⟨rfl, parseParameters_lines_of_malformed tokens i _ hs⟩

theorem strideErrorLines_not_report (tokens : List String) (i : Nat) (line : String)
    (h : line ∈ strideErrorLines tokens i) : ¬ unprocessedMessage.data <:+ line.data := by
  intro hsuf
  have hlast := getLast?_of_report_suffix line hsuf
  rcases strideErrorLines_cases tokens i with ⟨t, -, hnil⟩ | ⟨-, j, d, -, -, -, hd, hl⟩
  · rw [hnil] at h; simp at h
  · rw [hl] at h
    simp only [List.mem_cons, List.mem_singleton, List.not_mem_nil, or_false] at h
    rcases h with rfl | rfl
    · simp only [diagnosticsOf, List.mem_cons, List.mem_singleton, List.not_mem_nil,
        or_false] at hd
      rcases hd with rfl | rfl | rfl
      · rw [getLast?_data_append _ _ 'e' (by decide)] at hlast
        exact absurd hlast (by decide)
      · rw [getLast?_data_append _ _ 'e' (by decide)] at hlast
        exact absurd hlast (by decide)
      · rw [getLast?_data_append _ _ 'r' (by decide)] at hlast
        exact absurd hlast (by decide)
    · unfold failedStrideLine at hlast
      rw [getLast?_data_append _ _ 's' (by decide)] at hlast
      exact absurd hlast (by decide)

theorem isReport_append_message (s : String) : isReport (s ++ unprocessedMessage) = true := by
  unfold isReport
  rw [List.isSuffixOf_iff_suffix, String.data_append]
  exact List.suffix_append _ _

theorem trailingReport_filter (tokens : List String) :
    (trailingReport tokens).filter isReport = trailingReport tokens := by
  unfold trailingReport
  split
  · simp [isReport_append_message]
  · split
    · simp [isReport_append_message]
    · rfl

theorem strideErrorLines_filter (tokens : List String) (l : List Nat) :
    (l.flatMap (strideErrorLines tokens)).filter isReport = [] := by
  rw [List.filter_eq_nil_iff]
  intro line hline
  obtain ⟨i, -, hi⟩ := List.mem_flatMap.1 hline
  have := strideErrorLines_not_report tokens i line hi
  unfold isReport
  rw [List.isSuffixOf_iff_suffix]
  exact this

/-- C12. Trailing-token report. For every token sequence of length n, the
events of the producer are the events of the stride loop, then setDone, then
the report; no line of the stride loop ends with the message of the report; the
report is empty when n is a multiple of 3, and otherwise is the one line
`(t) => message` with the last token when n mod 3 = 1 and `(t1 t2) => message`
with the last two tokens in order when n mod 3 = 2. So the number of lines on
the error stream that end with the message is 0 when 3 divides n and 1
otherwise. The tokens 1 -3 2 0 2 -4 7 report `(7) => message`. -/
theorem producer_reports_trailing_tokens (tokens : List String) (params : EquationParams) :
    Producer.producer tokens tokens.length params
      = (Producer.producerLoop tokens tokens.length tokens.length 0 params).2.2
          ++ Event.setDone :: (trailingReport tokens).map Event.cerr ∧
    Event.setDone ∉ (Producer.producerLoop tokens tokens.length tokens.length 0 params).2.2 ∧
    (∀ line, Event.cerr line
        ∈ (Producer.producerLoop tokens tokens.length tokens.length 0 params).2.2 →
      isReport line = false) ∧
    (tokens.length % 3 = 0 → trailingReport tokens = []) ∧
    (tokens.length % 3 = 1 → trailingReport tokens
      = ["(" ++ tokens.getD (tokens.length - 1) "" ++ ") => "
          ++ "Unprocessed parameters: parameter count must be a multiple of 3!"]) ∧
    (tokens.length % 3 = 2 → trailingReport tokens
      = ["(" ++ tokens.getD (tokens.length - 2) "" ++ " " ++ tokens.getD (tokens.length - 1) ""
          ++ ") => " ++ "Unprocessed parameters: parameter count must be a multiple of 3!"]) ∧
    ((cerrOf (Producer.producer tokens tokens.length params)).filter isReport).length
      = (if tokens.length % 3 = 0 then 0 else 1) ∧
    Producer.producer ["1", "-3", "2", "0", "2", "-4", "7"] 7 (EquationParams.mk 0 0 0)
      = [Event.push ⟨1, -3, 2⟩, Event.push ⟨0, 2, -4⟩, Event.setDone,
         Event.cerr "(7) => Unprocessed parameters: parameter count must be a multiple of 3!"] := by
  refine ⟨Producer.producer_eq tokens params,
    Producer.producerLoop_no_setDone _ _ _ _ _, ?_, ?_, ?_, ?_, ?_, by decide⟩
  · intro line hline
    have h := Producer.producerLoop_cerr tokens tokens.length tokens.length 0 params (by omega)
    have hmem : line ∈ (List.range' 0 (tokens.length / 3 - 0)).flatMap
        (strideErrorLines tokens) := by
      rw [← h]
      exact (mem_cerrOf _ _).2 hline
    have hf := strideErrorLines_filter tokens (List.range' 0 (tokens.length / 3 - 0))
    rw [List.filter_eq_nil_iff] at hf
    simpa using hf line hmem
  · intro h
    have h1 : ¬ tokens.length % 3 = 1 := by omega
    have h2 : ¬ tokens.length % 3 = 2 := by omega
    simp [trailingReport, h1, h2]
  · intro h
    simp [trailingReport, h, unprocessedMessage]
  · intro h
    have h1 : ¬ tokens.length % 3 = 1 := by omega
    simp [trailingReport, h, h1, unprocessedMessage]
  · rw [Producer.producer_cerr, List.filter_append, strideErrorLines_filter,
      trailingReport_filter, List.nil_append]
    unfold trailingReport
    have h3 : tokens.length % 3 = 0 ∨ tokens.length % 3 = 1 ∨ tokens.length % 3 = 2 := by omega
    rcases h3 with h | h | h
    · have h1 : ¬ tokens.length % 3 = 1 := by omega
      have h2 : ¬ tokens.length % 3 = 2 := by omega
      simp [h, h1, h2]
    · simp [h]
    · have h1 : ¬ tokens.length % 3 = 1 := by omega
      simp [h, h1]

/-- C13, as stated, fails: for the single stride 1 x 2 the producer writes two
lines to the error stream, the diagnostic of `toNumber` for the token x and then
the line of the stride. -/
theorem malformed_stride_writes_two_lines :
    convertStride ["1", "x", "2"] 0 = none ∧
    cerrOf (Producer.producer ["1", "x", "2"] 3 (EquationParams.mk 0 0 0))
      = ["\x27x\x27 can\x27t be converted to an integer value",
         "(1 x 2) => failed to convert parameters to integers"] ∧
    (cerrOf (Producer.producer ["1", "x", "2"] 3 (EquationParams.mk 0 0 0))).length = 2 := by
  decide

/-- C13, amended. For every full stride of three tokens in which some token
fails integer conversion, the producer writes exactly two lines to the error
stream for that stride: the diagnostic of `toNumber` for the first token that
fails (one of its three messages, with that token), and then
`(t0 t1 t2) => failed to convert parameters to integers` with the three tokens
of the stride. A stride whose three tokens all convert writes nothing. The error
stream of the producer is the sequence of these lines over the strides
i = 0 .. n/3 - 1, followed by the report on trailing tokens. -/
theorem malformed_stride_error_lines (tokens : List String) (i : Nat)
    (params : EquationParams) :
    (parseParameters tokens (3 * i) params).2.2 = strideErrorLines tokens i ∧
    ((∃ t, convertStride tokens i = some t ∧ strideErrorLines tokens i = []) ∨
      (convertStride tokens i = none ∧
        ∃ j d, j < 3 ∧ convertToken (tokens.getD (3 * i + j) "") = none ∧
          (∀ k, k < j → convertToken (tokens.getD (3 * i + k) "") ≠ none) ∧
          d ∈ ["\x27" ++ tokens.getD (3 * i + j) ""
                ++ "\x27 can\x27t be converted to an integer value",
              "\x27" ++ tokens.getD (3 * i + j) "" ++ "\x27 value is out of range",
              "\x27" ++ tokens.getD (3 * i + j) ""
                ++ "\x27 can\x27t be fully converted to an integer"] ∧
          strideErrorLines tokens i
            = [d, "(" ++ tokens.getD (3 * i) "" ++ " " ++ tokens.getD (3 * i + 1) "" ++ " "
                ++ tokens.getD (3 * i + 2) ""
                ++ ") => failed to convert parameters to integers"])) ∧
    cerrOf (Producer.producer tokens tokens.length params)
      = (List.range (tokens.length / 3)).flatMap (strideErrorLines tokens)
          ++ trailingReport tokens ∧
    strideErrorLines ["1", "-3", "2", "0", "2", "-4", "7"] 0 = [] ∧
    strideErrorLines ["7", "1.5", "12abc"] 0
      = ["\x271.5\x27 can\x27t be fully converted to an integer",
         "(7 1.5 12abc) => failed to convert parameters to integers"] := by
  exact ⟨parseParameters_lines_eq tokens i params, strideErrorLines_cases tokens i,
    Producer.producer_cerr tokens params, by decide, by decide⟩

/-! ## Consumer: the result line -/

theorem outputResult_eq {D : Type} (showDouble : D → String) (params : EquationParams)
    (roots : roots_t D) (extremum : D) :
    outputResult showDouble params roots extremum
      = "(" ++ toString params.a ++ " " ++ toString params.b ++ " " ++ toString params.c
          ++ ") => " ++ rootsText showDouble roots ++ ", "
          ++ extremumText showDouble params.a extremum := by
  unfold outputResult rootsText extremumText
  simp only [EquationParams.get, gt_iff_lt]
  rcases roots with ⟨_ | r1, _ | r2⟩ <;>
    by_cases h1 : 0 < params.a <;> by_cases h2 : params.a < 0 <;>
    simp only [h1, h2, if_true, if_false] <;>
    apply String.ext <;>
    simp [String.data_append]

theorem extremumText_Xmin_iff {D : Type} (showDouble : D → String) (a : Int) (v : D) :
    (∃ text, extremumText showDouble a v = "Xmin=" ++ text) ↔ 0 < a := by
  unfold extremumText
  constructor
  · rintro ⟨text, h⟩
    by_contra hpos
    rw [if_neg hpos] at h
    by_cases hneg : a < 0
    · rw [if_pos hneg] at h
      have := congrArg String.data h
      simp [String.data_append] at this
    · rw [if_neg hneg] at h
      have := congrArg String.data h
      simp [String.data_append] at this
  · intro h
    exact ⟨showDouble v, by rw [if_pos h]⟩

theorem extremumText_Xmax_iff {D : Type} (showDouble : D → String) (a : Int) (v : D) :
    (∃ text, extremumText showDouble a v = "Xmax=" ++ text) ↔ a < 0 := by
  unfold extremumText
  constructor
  · rintro ⟨text, h⟩
    by_cases hpos : 0 < a
    · rw [if_pos hpos] at h
      have := congrArg String.data h
      simp [String.data_append] at this
    · rw [if_neg hpos] at h
      by_contra hneg
      rw [if_neg hneg] at h
      have := congrArg String.data h
      simp [String.data_append] at this
  · intro h
    have hpos : ¬ 0 < a := by omega
    exact ⟨showDouble v, by rw [if_neg hpos, if_pos h]⟩

theorem extremumText_none_iff {D : Type} (showDouble : D → String) (a : Int) (v : D) :
    extremumText showDouble a v = "no extremum" ↔ a = 0 := by
  unfold extremumText
  constructor
  · intro h
    by_cases hpos : 0 < a
    · rw [if_pos hpos] at h
      have := congrArg String.data h
      simp [String.data_append] at this
    · rw [if_neg hpos] at h
      by_cases hneg : a < 0
      · rw [if_pos hneg] at h
        have := congrArg String.data h
        simp [String.data_append] at this
      · omega
  · intro h
    subst h
    simp

theorem roots_t.count_cases {D : Type} (showDouble : D → String) (roots : roots_t D) :
    (roots.count = 2 → ∃ r1 r2, roots.first_root = some r1 ∧ roots.second_root = some r2 ∧
      rootsText showDouble roots = "(" ++ showDouble r1 ++ ", " ++ showDouble r2 ++ ")") ∧
    (roots.count = 1 → ∃ r1, roots.first_root = some r1 ∧ roots.second_root = none ∧
      rootsText showDouble roots = "(" ++ showDouble r1 ++ ")") ∧
    (roots.count = 0 → roots.first_root = none ∧ rootsText showDouble roots = "no roots") := by
  rcases roots with ⟨_ | r1, _ | r2⟩
  · exact ⟨fun h => by simp [roots_t.count] at h, fun h => by simp [roots_t.count] at h,
      fun _ => ⟨rfl, rfl⟩⟩
  · exact ⟨fun h => by simp [roots_t.count] at h, fun h => by simp [roots_t.count] at h,
      fun _ => ⟨rfl, rfl⟩⟩
  · exact ⟨fun h => by simp [roots_t.count] at h, fun _ => ⟨r1, rfl, rfl, rfl⟩,
      fun h => by simp [roots_t.count] at h⟩
  · exact ⟨fun _ => ⟨r1, r2, rfl, rfl, rfl⟩, fun h => by simp [roots_t.count] at h,
      fun h => by simp [roots_t.count] at h⟩

/-- C14. Structure of a result line. For every triple (a, b, c), roots and
extremum value the line written by `outputResult` is
`(a b c) => <roots>, <extremum>`, where `<roots>` is `(r1, r2)` when the roots
hold two values, `(r1)` when they hold one and `no roots` when they hold none,
and `<extremum>` is `Xmin=v` exactly when a > 0, `Xmax=v` exactly when a < 0
and `no extremum` exactly when a = 0. Every line the consumer writes for a
popped triple is such a line for the roots returned by `solveEquation`.
(0,0,5) gives `no roots, no extremum` and (1,2,5) gives `no roots, Xmin=` with
the value -1. -/
theorem result_line_structure (showDouble : ℝ → String) (params : EquationParams)
    (roots : roots_t ℝ) (extremum : ℝ) :
    outputResult showDouble params roots extremum
      = "(" ++ toString params.a ++ " " ++ toString params.b ++ " " ++ toString params.c
          ++ ") => " ++ rootsText showDouble roots ++ ", "
          ++ extremumText showDouble params.a extremum ∧
    (roots.count = 2 → ∃ r1 r2, roots.first_root = some r1 ∧ roots.second_root = some r2 ∧
      rootsText showDouble roots = "(" ++ showDouble r1 ++ ", " ++ showDouble r2 ++ ")") ∧
    (roots.count = 1 → ∃ r1, roots.first_root = some r1 ∧ roots.second_root = none ∧
      rootsText showDouble roots = "(" ++ showDouble r1 ++ ")") ∧
    (roots.count = 0 → roots.first_root = none ∧ rootsText showDouble roots = "no roots") ∧
    (0 < params.a → extremumText showDouble params.a extremum = "Xmin=" ++ showDouble extremum) ∧
    (params.a < 0 → extremumText showDouble params.a extremum = "Xmax=" ++ showDouble extremum) ∧
    ((∃ text, extremumText showDouble params.a extremum = "Xmin=" ++ text) ↔ 0 < params.a) ∧
    ((∃ text, extremumText showDouble params.a extremum = "Xmax=" ++ text) ↔ params.a < 0) ∧
    (extremumText showDouble params.a extremum = "no extremum" ↔ params.a = 0) ∧
    (∀ line, consumerBody Real.sqrt showDouble params = some line →
      ∃ v, line = outputResult showDouble params (solveEquation Real.sqrt params) v) ∧
    consumerBody Real.sqrt showDouble ⟨0, 0, 5⟩ = some "(0 0 5) => no roots, no extremum" ∧
    consumerBody Real.sqrt showDouble ⟨1, 2, 5⟩
      = some ("(1 2 5) => no roots, Xmin=" ++ showDouble (-1)) := by
  obtain ⟨hc2, hc1, hc0⟩ := roots_t.count_cases showDouble roots
  refine ⟨outputResult_eq showDouble params roots extremum, hc2, hc1, hc0, ?_, ?_,
    extremumText_Xmin_iff showDouble params.a extremum,
    extremumText_Xmax_iff showDouble params.a extremum,
    extremumText_none_iff showDouble params.a extremum, ?_, ?_, ?_⟩
  · intro h
    simp [extremumText, h]
  · intro h
    have h1 : ¬ 0 < params.a := by omega
    simp [extremumText, h, h1]
  · intro line hline
    unfold consumerBody at hline
    by_cases hl : (!isLinearEquation params) = true
    · simp only [hl, if_true] at hline
      cases he : (extremumOf params : Option ℝ) with
      | none => rw [he] at hline; simp at hline
      | some v =>
        rw [he] at hline
        simp only [Option.some.injEq] at hline
        exact ⟨v, hline.symm⟩
    · rw [if_neg hl] at hline
      simp only [Option.some.injEq] at hline
      exact ⟨0, hline.symm⟩
  · rw [consumerBody_linear, outputResult_eq]
    have hr : solveEquation Real.sqrt ⟨0, 0, 5⟩ = ⟨none, none⟩ := by
      rw [solveEquation_linear]
      simp [solveLinearEquation]
    rw [hr]
    rfl
  · rw [consumerBody_quadratic Real.sqrt showDouble 1 2 5 (by decide),
      extremumOf_eq 1 2 5 (by decide) (by decide) (by decide)]
    have hr : solveEquation Real.sqrt ⟨1, 2, 5⟩ = ⟨none, none⟩ := by
      rw [solveEquation_quadratic Real.sqrt 1 2 5 (by decide)]
      have hd : discriminant64 1 2 5 = -16 := by decide
      simp [solveQuadraticEquation, hd]
    have hv : (-((2 : Int) : ℝ) / (2 * ((1 : Int) : ℝ))) = -1 := by push_cast; norm_num
    rw [Option.map_some', outputResult_eq, hr, hv]
    rfl

/-! ## Producer: token validation -/

theorem stollSign_decomp (rest : List Char) :
    ∃ sign, (sign = [] ∨ sign = ['+'] ∨ sign = ['-']) ∧ rest = sign ++ (stollSign rest).2.2 ∧
      (stollSign rest).2.1 = sign.length ∧ ((stollSign rest).1 = true ↔ sign = ['-']) := by
  unfold stollSign
  split
  · exact ⟨['-'], by simp, rfl, rfl, by simp⟩
  · exact ⟨['+'], by simp, rfl, rfl, by simp⟩
  · exact ⟨[], by simp, rfl, rfl, by simp⟩

theorem isDigit_not_isspace (c : Char) (h : c.isDigit = true) : ¬ isspace c = true := by
  unfold Char.isDigit at h
  unfold isspace
  simp only [ge_iff_le, Bool.and_eq_true, decide_eq_true_eq] at h
  have h1 : 48 ≤ c.toNat := h.1
  simp
  omega

theorem stollSign_of_shape (sign digits : List Char)
    (hsign : sign = [] ∨ sign = ['+'] ∨ sign = ['-']) (hne : digits ≠ [])
    (hdig : ∀ c ∈ digits, c.isDigit = true) :
    stollSign (sign ++ digits) = (decide (sign = ['-']), sign.length, digits) := by
  rcases hsign with rfl | rfl | rfl
  · cases digits with
    | nil => exact absurd rfl hne
    | cons d ds =>
      have hd := hdig d (List.mem_cons_self _ _)
      unfold stollSign
      split
      · rename_i heq
        simp only [List.nil_append, List.cons.injEq] at heq
        rw [heq.1] at hd
        exact absurd hd (by decide)
      · rename_i heq
        simp only [List.nil_append, List.cons.injEq] at heq
        rw [heq.1] at hd
        exact absurd hd (by decide)
      · rfl
  · rfl
  · rfl

theorem takeWhile_isspace_of_shape (blanks sign digits : List Char)
    (hblank : ∀ c ∈ blanks, isspace c = true)
    (hsign : sign = [] ∨ sign = ['+'] ∨ sign = ['-']) (hne : digits ≠ [])
    (hdig : ∀ c ∈ digits, c.isDigit = true) :
    (blanks ++ sign ++ digits).takeWhile isspace = blanks ∧
      (blanks ++ sign ++ digits).dropWhile isspace = sign ++ digits := by
  have hhead : (sign ++ digits).takeWhile isspace = [] ∧
      (sign ++ digits).dropWhile isspace = sign ++ digits := by
    rcases hsign with rfl | rfl | rfl
    · cases digits with
      | nil => exact absurd rfl hne
      | cons d ds =>
        have hd := isDigit_not_isspace d (hdig d (List.mem_cons_self _ _))
        exact ⟨List.takeWhile_cons_of_neg hd, List.dropWhile_cons_of_neg hd⟩
    · exact ⟨List.takeWhile_cons_of_neg (by decide), List.dropWhile_cons_of_neg (by decide)⟩
    · exact ⟨List.takeWhile_cons_of_neg (by decide), List.dropWhile_cons_of_neg (by decide)⟩
  rw [List.append_assoc, List.takeWhile_append_of_pos hblank,
    List.dropWhile_append_of_pos hblank, hhead.1, hhead.2, List.append_nil]
  exact ⟨rfl, rfl⟩

theorem stoll_of_shape (chars : List Char) (value : Int) (h : TokenShape chars value) :
    stoll chars = StollResult.ok value chars.length := by
  obtain ⟨blanks, sign, digits, rfl, hblank, hsign, hne, hdig, hval, hrange⟩ := h
  obtain ⟨htake, hdrop⟩ := takeWhile_isspace_of_shape blanks sign digits hblank hsign hne hdig
  have hss := stollSign_of_shape sign digits hsign hne hdig
  have htd : digits.takeWhile Char.isDigit = digits := List.takeWhile_eq_self_iff.2 hdig
  have hemp : digits.isEmpty = false := by
    cases digits with
    | nil => exact absurd rfl hne
    | cons d ds => rfl
  unfold stoll
  simp only [htake, hdrop, hss, htd, hemp, Bool.false_eq_true, if_false, decide_eq_true_eq]
  rw [← hval]
  have hr : ¬ (value < -(2 : Int) ^ 63 ∨ (2 : Int) ^ 63 ≤ value) := by
    unfold inInt64 at hrange
    omega
  rw [if_neg hr]
  simp only [List.length_append]

theorem shape_of_stoll (chars : List Char) (value : Int)
    (h : stoll chars = StollResult.ok value chars.length) : TokenShape chars value := by
  obtain ⟨sign, hsign, hrest, hlen, hneg⟩ := stollSign_decomp (chars.dropWhile isspace)
  have hsplit := List.takeWhile_append_dropWhile isspace chars
  have hsplit2 := List.takeWhile_append_dropWhile Char.isDigit
    (stollSign (chars.dropWhile isspace)).2.2
  unfold stoll at h
  simp only at h
  by_cases hemp : ((stollSign (chars.dropWhile isspace)).2.2.takeWhile Char.isDigit).isEmpty
      = true
  · rw [if_pos hemp] at h
    exact absurd h (by simp)
  · rw [if_neg hemp] at h
    have key : ∀ (val : Int) (pos : Nat),
        (if val < -(2 : Int) ^ 63 ∨ (2 : Int) ^ 63 ≤ val then StollResult.out_of_range
          else StollResult.ok val pos) = StollResult.ok value chars.length →
        val = value ∧ pos = chars.length ∧ inInt64 val := by
      intro val pos hk
      by_cases hr : val < -(2 : Int) ^ 63 ∨ (2 : Int) ^ 63 ≤ val
      · rw [if_pos hr] at hk
        exact absurd hk (by simp)
      · rw [if_neg hr] at hk
        simp only [StollResult.ok.injEq] at hk
        refine ⟨hk.1, hk.2, ?_⟩
        unfold inInt64
        omega
    obtain ⟨hv, hpos, hin⟩ := key _ _ h
    have htail : (stollSign (chars.dropWhile isspace)).2.2.dropWhile Char.isDigit = [] := by
      have hl := congrArg List.length hsplit
      have hl1 := congrArg List.length hrest
      have hl2 := congrArg List.length hsplit2
      simp only [List.length_append] at hl hl1 hl2
      apply List.length_eq_zero.1
      omega
    rw [htail, List.append_nil] at hsplit2
    refine ⟨chars.takeWhile isspace, sign,
      (stollSign (chars.dropWhile isspace)).2.2.takeWhile Char.isDigit, ?_,
      fun c hc => List.mem_takeWhile_imp hc, hsign, ?_,
      fun c hc => List.mem_takeWhile_imp hc, ?_, ?_⟩
    · rw [List.append_assoc, hsplit2, ← hrest, hsplit]
    · intro hnil
      rw [hnil] at hemp
      exact hemp rfl
    · rw [← hv]
      by_cases hs : sign = ['-']
      · rw [if_pos (hneg.2 hs), if_pos hs]
      · have : ¬ (stollSign (chars.dropWhile isspace)).1 = true := fun hc => hs (hneg.1 hc)
        rw [if_neg this, if_neg hs]
    · rw [← hv]
      exact hin

theorem toNumber_eq_true_iff (token : String) (number value : Int) :
    toNumber token number = (true, value, []) ↔ TokenShape token.toList value := by
  constructor
  · intro h
    apply shape_of_stoll
    cases hs : stoll token.toList with
    | invalid_argument => simp only [toNumber, hs] at h; simp at h
    | out_of_range => simp only [toNumber, hs] at h; simp at h
    | ok v final_pos =>
      simp only [toNumber, hs] at h
      by_cases hl : token.length = final_pos
      · rw [if_neg (by simp [hl])] at h
        simp only [Prod.mk.injEq, true_and, and_true] at h
        rw [← h, ← hl]
        rfl
      · rw [if_pos hl] at h
        simp at h
  · intro h
    have hs := stoll_of_shape token.toList value h
    simp only [toNumber, hs]
    rw [if_neg (fun hne => hne rfl)]

theorem convertToken_eq_none_of_toNumber_false (token : String) (number : Int)
    (h : (toNumber token number).1 = false) : convertToken token = none := by
  cases hc : convertToken token with
  | none => rfl
  | some v =>
    rw [toNumber_of_convertToken_some token v number hc] at h
    exact absurd h (by simp)

theorem convertStride_eq_none_of_token (tokens : List String) (i j : Nat) (hj : j < 3)
    (h : convertToken (tokens.getD (3 * i + j) "") = none) : convertStride tokens i = none := by
  unfold convertStride
  have hj3 : j = 0 ∨ j = 1 ∨ j = 2 := by omega
  rcases hj3 with rfl | rfl | rfl
  · rw [Nat.add_zero] at h
    rw [h]
  · rw [h]
    cases convertToken (tokens.getD (3 * i) "") <;> rfl
  · rw [h]
    cases convertToken (tokens.getD (3 * i) "") <;>
      cases convertToken (tokens.getD (3 * i + 1) "") <;> rfl

/-- C18, as stated, fails: the token of a space followed by 12 is accepted with
value 12, and so are a token with a leading tab and a token with a plus sign;
the triple made of them is converted, not skipped. -/
theorem toNumber_accepts_leading_white_space :
    toNumber " 12" 0 = (true, 12, []) ∧
    " 12".toList.head? = some ' ' ∧
    toNumber "\t-3" 0 = (true, -3, []) ∧
    toNumber "+2" 0 = (true, 2, []) ∧
    convertedStrides [" 12", "\t-3", "+2"] = [⟨12, -3, 2⟩] := by
  decide

/-- C18, amended. `toNumber` accepts a token, returning true and storing its
value, if and only if the whole token is: optional leading white space (the
characters `std::stoll` skips), an optional sign `+` or `-`, and one or more
decimal digits with nothing after them, the value lying in the 64-bit signed
range. A token that is empty, non-numeric, out of range, followed by other
characters (`12abc`, `1.5`, a trailing space) or with white space after the
sign is rejected, and then the stride that contains it is not converted: it is
skipped. -/
theorem toNumber_accepts_iff_shape (token : String) (number value : Int)
    (tokens : List String) (i j : Nat) (params : EquationParams) :
    (toNumber token number = (true, value, []) ↔ TokenShape token.toList value) ∧
    ((toNumber token number).1 = true ↔ ∃ v, TokenShape token.toList v) ∧
    (j < 3 → (toNumber (tokens.getD (3 * i + j) "") number).1 = false →
      convertStride tokens i = none ∧ (parseParameters tokens (3 * i) params).1 = false) ∧
    (toNumber "" 0).1 = false ∧ (toNumber "abc" 0).1 = false ∧
    (toNumber "12abc" 0).1 = false ∧ (toNumber "1.5" 0).1 = false ∧
    (toNumber "12 " 0).1 = false ∧ (toNumber "- 5" 0).1 = false ∧
    (toNumber "9223372036854775808" 0).1 = false ∧
    toNumber "-9223372036854775808" 0 = (true, -9223372036854775808, []) ∧
    convertedStrides ["1", "2", "3", "4", "1.5", "6", "7", "8", "9"] = [⟨1, 2, 3⟩, ⟨7, 8, 9⟩] := by
  refine ⟨toNumber_eq_true_iff token number value, ?_, ?_, by decide, by decide, by decide,
    by decide, by decide, by decide, by decide, by decide, by decide⟩
  · constructor
    · intro h
      cases hc : convertToken token with
      | none =>
        rw [toNumber_of_convertToken_none token number hc] at h
        exact absurd h (by simp)
      | some v =>
        exact ⟨v, (toNumber_eq_true_iff token number v).1
          (toNumber_of_convertToken_some token v number hc)⟩
    · rintro ⟨v, hv⟩
      rw [(toNumber_eq_true_iff token number v).2 hv]
  · intro hj hfalse
    have hnone := convertStride_eq_none_of_token tokens i j hj
      (convertToken_eq_none_of_toNumber_false _ number hfalse)
    exact ⟨hnone, (parseParameters_of_convertStride tokens i params).2 hnone⟩

/-! ## Solver: the roots solve the equation -/

theorem solveEquation_of_pos (a b c : Int) (ha : a ≠ 0) (hex : discriminantExact a b c)
    (hb : inInt64 (-b)) (hd : 0 < b * b - 4 * a * c) :
    solveEquation Real.sqrt ⟨a, b, c⟩
      = { first_root := some ((-(b : ℝ) + Real.sqrt ((b : ℝ) ^ 2 - 4 * (a : ℝ) * (c : ℝ)))
            / (2 * (a : ℝ))),
          second_root := some ((-(b : ℝ) - Real.sqrt ((b : ℝ) ^ 2 - 4 * (a : ℝ) * (c : ℝ)))
            / (2 * (a : ℝ))) } := by
  rw [solveEquation_quadratic Real.sqrt a b c ha]
  unfold solveQuadraticEquation
  rw [discriminant64_eq a b c hex, wrap64_eq_self _ hb]
  have hcast : ((b * b - 4 * a * c : Int) : ℝ) = (b : ℝ) ^ 2 - 4 * (a : ℝ) * (c : ℝ) := by
    push_cast; ring
  simp only [gt_iff_lt, hd, if_true, hcast, Int.cast_neg]

theorem solveEquation_of_zero (a b c : Int) (ha : a ≠ 0) (hex : discriminantExact a b c)
    (hb : inInt64 (-b)) (hd : b * b - 4 * a * c = 0) :
    solveEquation Real.sqrt ⟨a, b, c⟩
      = { first_root := some (-(b : ℝ) / (2 * (a : ℝ))), second_root := none } := by
  rw [solveEquation_quadratic Real.sqrt a b c ha]
  unfold solveQuadraticEquation
  rw [discriminant64_eq a b c hex, wrap64_eq_self _ hb]
  simp only [gt_iff_lt, hd, lt_self_iff_false, if_false, if_true, Int.cast_neg]

theorem solveEquation_of_neg (a b c : Int) (ha : a ≠ 0) (hex : discriminantExact a b c)
    (hd : b * b - 4 * a * c < 0) :
    solveEquation Real.sqrt ⟨a, b, c⟩ = { first_root := none, second_root := none } := by
  rw [solveEquation_quadratic Real.sqrt a b c ha]
  unfold solveQuadraticEquation
  rw [discriminant64_eq a b c hex]
  have h1 : ¬ 0 < b * b - 4 * a * c := by omega
  have h2 : ¬ b * b - 4 * a * c = 0 := by omega
  simp only [gt_iff_lt, h1, h2, if_false]

theorem solveEquation_of_linear (b c : Int) (hb : b ≠ 0) (hc : inInt64 (-c)) :
    solveEquation Real.sqrt ⟨0, b, c⟩
      = { first_root := some (-(c : ℝ) / (b : ℝ)), second_root := none } := by
  rw [solveEquation_linear]
  simp only [solveLinearEquation, ne_eq, hb, not_false_eq_true, if_true, wrap64_eq_self _ hc,
    Int.cast_neg]

theorem quadratic_root_of_sqrt (a b c s r : ℝ) (ha : a ≠ 0) (hs : s ^ 2 = b ^ 2 - 4 * a * c)
    (hr : r = (-b + s) / (2 * a)) : a * r ^ 2 + b * r + c = 0 := by
  have h2 : 2 * a * r = -b + s := by rw [hr]; field_simp
  have h4 : 4 * a * (a * r ^ 2 + b * r + c) = 0 := by
    linear_combination (2 * a * r + s + b) * h2 + hs
  rcases mul_eq_zero.1 h4 with h | h
  · exact absurd h (mul_ne_zero (by norm_num) ha)
  · exact h

/-- C19. Reported roots are roots. For every integer triple (a, b, c) for which
no 64-bit operation of the solver overflows (the discriminant computation and
the negations of b and c), in exact real arithmetic: every root r returned by
`solveEquation` satisfies a r^2 + b r + c = 0; when a != 0 and the discriminant
is positive two roots are returned and they are distinct; and when no root is
returned and (a, b) != (0, 0), the equation a x^2 + b x + c = 0 has no real
solution. -/
theorem reported_roots_are_roots (a b c : Int) (hex : discriminantExact a b c)
    (hb : inInt64 (-b)) (hc : inInt64 (-c)) :
    (∀ r : ℝ, ((solveEquation Real.sqrt ⟨a, b, c⟩).first_root = some r ∨
        (solveEquation Real.sqrt ⟨a, b, c⟩).second_root = some r) →
      (a : ℝ) * r ^ 2 + (b : ℝ) * r + (c : ℝ) = 0) ∧
    (a ≠ 0 → 0 < b * b - 4 * a * c →
      ∃ r1 r2 : ℝ, (solveEquation Real.sqrt ⟨a, b, c⟩).first_root = some r1 ∧
        (solveEquation Real.sqrt ⟨a, b, c⟩).second_root = some r2 ∧ r1 ≠ r2) ∧
    ((solveEquation Real.sqrt ⟨a, b, c⟩).first_root = none →
      (solveEquation Real.sqrt ⟨a, b, c⟩).second_root = none → (a ≠ 0 ∨ b ≠ 0) →
      ∀ x : ℝ, (a : ℝ) * x ^ 2 + (b : ℝ) * x + (c : ℝ) ≠ 0) := by
  have hcast : ((b * b - 4 * a * c : Int) : ℝ) = (b : ℝ) ^ 2 - 4 * (a : ℝ) * (c : ℝ) := by
    push_cast; ring
  by_cases ha : a = 0
  · subst ha
    by_cases hb0 : b = 0
    · subst hb0
      have hsol : solveEquation Real.sqrt ⟨0, 0, c⟩ = ⟨none, none⟩ := by
        rw [solveEquation_linear]
        simp [solveLinearEquation]
      rw [hsol]
      refine ⟨?_, fun h => absurd rfl h, fun _ _ h => ?_⟩
      · rintro r (h | h) <;> simp at h
      · rcases h with h | h <;> exact absurd rfl h
    · rw [solveEquation_of_linear b c hb0 hc]
      have hbR : (b : ℝ) ≠ 0 := by exact_mod_cast hb0
      refine ⟨?_, fun h => absurd rfl h, fun h => by simp at h⟩
      rintro r (h | h)
      · simp only [Option.some.injEq] at h
        rw [← h]
        field_simp
        ring
      · simp at h
  · have haR : (a : ℝ) ≠ 0 := by exact_mod_cast ha
    rcases lt_trichotomy (b * b - 4 * a * c) 0 with hd | hd | hd
    · rw [solveEquation_of_neg a b c ha hex hd]
      refine ⟨?_, fun _ h => by omega, fun _ _ _ x hx => ?_⟩
      · rintro r (h | h) <;> simp at h
      · have hdR : (b : ℝ) ^ 2 - 4 * (a : ℝ) * (c : ℝ) < 0 := by
          rw [← hcast]; exact_mod_cast hd
        have hid : (2 * (a : ℝ) * x + (b : ℝ)) ^ 2
            = 4 * (a : ℝ) * ((a : ℝ) * x ^ 2 + (b : ℝ) * x + (c : ℝ))
              + ((b : ℝ) ^ 2 - 4 * (a : ℝ) * (c : ℝ)) := by ring
        rw [hx, mul_zero, zero_add] at hid
        have hnn := sq_nonneg (2 * (a : ℝ) * x + (b : ℝ))
        linarith
    · rw [solveEquation_of_zero a b c ha hex hb hd]
      have hdR : (b : ℝ) ^ 2 - 4 * (a : ℝ) * (c : ℝ) = 0 := by
        rw [← hcast]; exact_mod_cast hd
      refine ⟨?_, fun _ h => by omega, fun h => by simp at h⟩
      rintro r (h | h)
      · simp only [Option.some.injEq] at h
        refine quadratic_root_of_sqrt a b c 0 r haR (by rw [hdR]; norm_num) ?_
        rw [← h, add_zero]
      · simp at h
    · rw [solveEquation_of_pos a b c ha hex hb hd]
      have hdR : 0 < (b : ℝ) ^ 2 - 4 * (a : ℝ) * (c : ℝ) := by
        rw [← hcast]; exact_mod_cast hd
      have hsq := Real.sq_sqrt (le_of_lt hdR)
      have hpos := Real.sqrt_pos.2 hdR
      refine ⟨?_, fun _ _ => ⟨_, _, rfl, rfl, ?_⟩, fun h => by simp at h⟩
      · rintro r (h | h)
        · simp only [Option.some.injEq] at h
          exact quadratic_root_of_sqrt a b c _ r haR hsq h.symm
        · simp only [Option.some.injEq] at h
          refine quadratic_root_of_sqrt a b c
            (-Real.sqrt ((b : ℝ) ^ 2 - 4 * (a : ℝ) * (c : ℝ))) r haR ?_ ?_
          · rw [neg_sq]; exact hsq
          · rw [← h]; ring
      · intro heq
        have h2a : (2 * (a : ℝ)) ≠ 0 := mul_ne_zero (by norm_num) haR
        have := (div_left_inj' h2a).1 heq
        linarith

/-- Witness for C19: (1, -3, 2), whose roots 2 and 1 solve x^2 - 3x + 2 = 0. -/
theorem reported_roots_are_roots_witness :
    (∀ r : ℝ, ((solveEquation Real.sqrt ⟨1, -3, 2⟩).first_root = some r ∨
        (solveEquation Real.sqrt ⟨1, -3, 2⟩).second_root = some r) →
      ((1 : Int) : ℝ) * r ^ 2 + ((-3 : Int) : ℝ) * r + ((2 : Int) : ℝ) = 0) ∧
    ∃ r1 r2 : ℝ, (solveEquation Real.sqrt ⟨1, -3, 2⟩).first_root = some r1 ∧
      (solveEquation Real.sqrt ⟨1, -3, 2⟩).second_root = some r2 ∧ r1 ≠ r2 :=
  ⟨(reported_roots_are_roots 1 (-3) 2 (by decide) (by decide) (by decide)).1,
   (reported_roots_are_roots 1 (-3) 2 (by decide) (by decide) (by decide)).2.1 (by decide)
     (by decide)⟩

/-! ## Solver: the overflow-free range -/

theorem mul_bounds_of_abs_le (x y : Int) (hx : |x| ≤ 2 ^ 30) (hy : |y| ≤ 2 ^ 30) :
    -(2 : Int) ^ 60 ≤ x * y ∧ x * y ≤ (2 : Int) ^ 60 := by
  obtain ⟨hx1, hx2⟩ := abs_le.1 hx
  obtain ⟨hy1, hy2⟩ := abs_le.1 hy
  have h1 : (0 : Int) ≤ 2 ^ 30 - x := by linarith
  have h2 : (0 : Int) ≤ 2 ^ 30 + x := by linarith
  have h3 : (0 : Int) ≤ 2 ^ 30 - y := by linarith
  have h4 : (0 : Int) ≤ 2 ^ 30 + y := by linarith
  have p1 := mul_nonneg h1 h3
  have p2 := mul_nonneg h2 h4
  have p3 := mul_nonneg h1 h4
  have p4 := mul_nonneg h2 h3
  constructor <;> nlinarith

/-- C20. Overflow-free range of the solver's integer arithmetic. For every
triple with |a|, |b|, |c| <= 2^30 the 64-bit computations `b * b`, `4 * a`,
`4 * a * c`, `b * b - 4 * a * c`, `2 * a` and `-b` stay in range (reduction
modulo 2^64 leaves them unchanged), so the discriminant compared against zero is
b^2 - 4ac and the root count is the one given by its sign (or by b when a = 0).
Outside such a range the signs can differ: for (1, 3037000500, 0) the 64-bit
discriminant is negative and no root is reported, although b^2 - 4ac > 0. -/
theorem solver_exact_within_range {D : Type} [DivisionRing D] (sqrt : D → D) (a b c : Int)
    (ha : |a| ≤ 2 ^ 30) (hb : |b| ≤ 2 ^ 30) (hc : |c| ≤ 2 ^ 30) :
    wrap64 (b * b) = b * b ∧ wrap64 (4 * a) = 4 * a ∧ wrap64 (4 * a * c) = 4 * a * c ∧
    wrap64 (b * b - 4 * a * c) = b * b - 4 * a * c ∧
    wrap64 (2 * a) = 2 * a ∧ wrap64 (-b) = -b ∧
    discriminant64 a b c = b * b - 4 * a * c ∧
    (solveEquation sqrt ⟨a, b, c⟩).count
      = (if a = 0 then (if b = 0 then 0 else 1)
         else if 0 < b * b - 4 * a * c then 2
         else if b * b - 4 * a * c = 0 then 1 else 0) ∧
    (inInt64 3037000500 ∧ discriminant64 1 3037000500 0 < 0 ∧
      (0 : Int) < 3037000500 * 3037000500 - 4 * 1 * 0 ∧
      (solveEquation sqrt ⟨1, 3037000500, 0⟩).count = 0) := by
  obtain ⟨ha1, ha2⟩ := abs_le.1 ha
  obtain ⟨hb1, hb2⟩ := abs_le.1 hb
  obtain ⟨hbb1, hbb2⟩ := mul_bounds_of_abs_le b b hb hb
  obtain ⟨hac1, hac2⟩ := mul_bounds_of_abs_le a c ha hc
  have e1 : inInt64 (b * b) := by unfold inInt64; constructor <;> omega
  have e2 : inInt64 (4 * a) := by
    unfold inInt64
    norm_num at ha1 ha2 ⊢
    constructor <;> omega
  have e3 : inInt64 (4 * a * c) := by
    unfold inInt64
    have : 4 * a * c = 4 * (a * c) := by ring
    rw [this]
    norm_num at hac1 hac2 ⊢
    constructor <;> omega
  have e4 : inInt64 (b * b - 4 * a * c) := by
    unfold inInt64
    have : 4 * a * c = 4 * (a * c) := by ring
    rw [this]
    norm_num at hac1 hac2 hbb1 hbb2 ⊢
    constructor <;> omega
  have e5 : inInt64 (2 * a) := by
    unfold inInt64
    norm_num at ha1 ha2 ⊢
    constructor <;> omega
  have e6 : inInt64 (-b) := by
    unfold inInt64
    norm_num at hb1 hb2 ⊢
    constructor <;> omega
  have hex : discriminantExact a b c := ⟨e1, e2, e3, e4⟩
  have hd := discriminant64_eq a b c hex
  refine ⟨wrap64_eq_self _ e1, wrap64_eq_self _ e2, wrap64_eq_self _ e3, wrap64_eq_self _ e4,
    wrap64_eq_self _ e5, wrap64_eq_self _ e6, hd, ?_, by decide, by decide, by decide, ?_⟩
  · by_cases ha0 : a = 0
    · subst ha0
      rw [solveEquation_linear, if_pos rfl]
      by_cases hb0 : b = 0
      · simp [solveLinearEquation, hb0, roots_t.count]
      · simp [solveLinearEquation, hb0, roots_t.count]
    · rw [solveEquation_quadratic sqrt a b c ha0, solveQuadraticEquation_count, hd, if_neg ha0]
  · rw [solveEquation_quadratic sqrt 1 3037000500 0 (by decide), solveQuadraticEquation_count]
    decide

/-- Witness for C20: the triple (1, -3, 2) lies in the range. -/
theorem solver_exact_within_range_witness :
    discriminant64 1 (-3) 2 = (-3) * (-3) - 4 * 1 * 2 ∧
    (solveEquation Real.sqrt ⟨1, -3, 2⟩).count
      = (if (1 : Int) = 0 then (if (-3 : Int) = 0 then 0 else 1)
         else if (0 : Int) < (-3) * (-3) - 4 * 1 * 2 then 2
         else if ((-3) * (-3) - 4 * 1 * 2 : Int) = 0 then 1 else 0) :=
  have h := solver_exact_within_range Real.sqrt 1 (-3) 2 (by decide) (by decide) (by decide)
  ⟨h.2.2.2.2.2.2.1, h.2.2.2.2.2.2.2.1⟩

/-! ## Pipeline: invariant -/

theorem Pipeline.run_schedule_nil (s : Pipeline) : s.run [] = s := rfl

theorem Pipeline.run_schedule_cons (s : Pipeline) (t : Thread) (schedule : List Thread) :
    s.run (t :: schedule) = ((s.step t).getD s).run schedule := rfl

theorem Pipeline.step_producer_inv (capacity consumer_count : Nat) (program : List Event)
    (s s1 : Pipeline) (h : Pipeline.Inv capacity consumer_count program s)
    (hs : s.step Thread.producer = some s1) :
    Pipeline.Inv capacity consumer_count program s1 := by
  obtain ⟨hcap, hlen, hcons, hcerr, hflag⟩ := h
  simp only [Pipeline.step] at hs
  cases hp : s.producer with
  | nil => rw [hp] at hs; simp at hs
  | cons e rest =>
    rw [hp] at hs hcons hcerr
    cases e with
    | push x =>
      simp only at hs
      cases hq : s.queue.push x with
      | none => rw [hq] at hs; simp at hs
      | some q =>
        rw [hq] at hs
        simp only [Option.some.injEq] at hs
        subst hs
        obtain ⟨-, rfl⟩ := (ParameterQueue.push_eq_some_iff _ _ _).1 hq
        refine ⟨hcap, hlen, ?_, ?_, ?_⟩
        · simpa [pushesOf, List.append_assoc] using hcons
        · simpa [cerrOf] using hcerr
        · rcases hflag with ⟨hf, ⟨pre, post, hprog, hpre, hpost⟩, hrun⟩ | ⟨-, hno, -⟩
          · left
            refine ⟨hf, ?_, hrun⟩
            rw [hp] at hprog
            cases pre with
            | nil => simp at hprog
            | cons e pre1 =>
              simp only [List.cons_append, List.cons.injEq] at hprog
              exact ⟨pre1, post, hprog.2, fun hm => hpre (List.mem_cons_of_mem _ hm), hpost⟩
          · exact absurd (by rw [hp]; exact List.mem_cons_self _ _) (hno x)
    | setDone =>
      simp only [Option.some.injEq] at hs
      subst hs
      refine ⟨hcap, hlen, ?_, ?_, ?_⟩
      · simpa [pushesOf, ParameterQueue.setDone] using hcons
      · simpa [cerrOf] using hcerr
      · right
        rcases hflag with ⟨-, ⟨pre, post, hprog, hpre, hpost⟩, hrun⟩ | ⟨-, hno, hterm⟩
        · rw [hp] at hprog
          cases pre with
          | nil =>
            simp only [List.nil_append, List.cons.injEq, true_and] at hprog
            subst hprog
            refine ⟨rfl, hpost, ?_⟩
            rintro ⟨c, hc, hct⟩
            rw [hrun c hc] at hct
            exact absurd hct (by decide)
          | cons e pre1 =>
            simp only [List.cons_append, List.cons.injEq] at hprog
            exact absurd (by rw [← hprog.1]; exact List.mem_cons_self _ _) hpre
        · refine ⟨rfl, fun x hx => hno x (by rw [hp]; exact List.mem_cons_of_mem _ hx), hterm⟩
    | cerr line =>
      simp only [Option.some.injEq] at hs
      subst hs
      refine ⟨hcap, hlen, ?_, ?_, ?_⟩
      · simpa [pushesOf] using hcons
      · simpa [cerrOf, List.append_assoc] using hcerr
      · rcases hflag with ⟨hf, ⟨pre, post, hprog, hpre, hpost⟩, hrun⟩ | ⟨hf, hno, hterm⟩
        · left
          refine ⟨hf, ?_, hrun⟩
          rw [hp] at hprog
          cases pre with
          | nil => simp at hprog
          | cons e pre1 =>
            simp only [List.cons_append, List.cons.injEq] at hprog
            exact ⟨pre1, post, hprog.2, fun hm => hpre (List.mem_cons_of_mem _ hm), hpost⟩
        · right
          exact ⟨hf, fun x hx => hno x (by rw [hp]; exact List.mem_cons_of_mem _ hx), hterm⟩

theorem Pipeline.step_consumer_inv (capacity consumer_count : Nat) (program : List Event)
    (s s1 : Pipeline) (i : Nat) (h : Pipeline.Inv capacity consumer_count program s)
    (hs : s.step (Thread.consumer i) = some s1) :
    Pipeline.Inv capacity consumer_count program s1 := by
  obtain ⟨hcap, hlen, hcons, hcerr, hflag⟩ := h
  simp only [Pipeline.step] at hs
  cases hc : s.consumers[i]? with
  | none => rw [hc] at hs; simp at hs
  | some c =>
    rw [hc] at hs
    cases c with
    | terminated => simp at hs
    | running =>
      simp only at hs
      cases hq : s.queue.m_queue with
      | nil =>
        cases hd : s.queue.m_done_flag with
        | false =>
          rw [ParameterQueue.pop_nil_open _ _ hq hd] at hs
          simp at hs
        | true =>
          rw [ParameterQueue.pop_nil_done _ _ hq hd] at hs
          simp only [Option.some.injEq] at hs
          subst hs
          refine ⟨hcap, by simpa using hlen, hcons, hcerr, ?_⟩
          right
          rcases hflag with ⟨hf, -, -⟩ | ⟨-, hno, -⟩
          · rw [hd] at hf
            exact absurd hf (by decide)
          · exact ⟨hd, hno, fun _ => hq⟩
      | cons front rest =>
        rw [ParameterQueue.pop_cons _ _ _ _ hq] at hs
        simp only [Option.some.injEq] at hs
        subst hs
        refine ⟨hcap, hlen, ?_, hcerr, ?_⟩
        · rw [hq] at hcons
          simpa [List.append_assoc] using hcons
        · rcases hflag with ⟨hf, hprog, hrun⟩ | ⟨hf, hno, hterm⟩
          · left
            exact ⟨hf, hprog, hrun⟩
          · right
            refine ⟨hf, hno, fun hex => ?_⟩
            have := hterm hex
            rw [hq] at this
            exact absurd this (by simp)

theorem Pipeline.step_inv (capacity consumer_count : Nat) (program : List Event)
    (s s1 : Pipeline) (t : Thread) (h : Pipeline.Inv capacity consumer_count program s)
    (hs : s.step t = some s1) : Pipeline.Inv capacity consumer_count program s1 := by
  cases t with
  | producer => exact Pipeline.step_producer_inv capacity consumer_count program s s1 h hs
  | consumer i => exact Pipeline.step_consumer_inv capacity consumer_count program s s1 i h hs

theorem Pipeline.run_inv (capacity consumer_count : Nat) (program : List Event)
    (schedule : List Thread) (s : Pipeline)
    (h : Pipeline.Inv capacity consumer_count program s) :
    Pipeline.Inv capacity consumer_count program (s.run schedule) := by
  induction schedule generalizing s with
  | nil => exact h
  | cons t schedule ih =>
    rw [Pipeline.run_schedule_cons]
    apply ih
    cases hs : s.step t with
    | none => exact h
    | some s1 => exact Pipeline.step_inv capacity consumer_count program s s1 t h hs

theorem Pipeline.init_inv (tokens : List String) (params : EquationParams)
    (consumer_count capacity : Nat) :
    Pipeline.Inv capacity consumer_count (Producer.producer tokens tokens.length params)
      (Pipeline.init tokens params consumer_count capacity) := by
  refine ⟨rfl, by simp [Pipeline.init], by simp [Pipeline.init, ParameterQueue.new],
    by simp [Pipeline.init], ?_⟩
  left
  refine ⟨rfl, ?_, ?_⟩
  · refine ⟨(Producer.producerLoop tokens tokens.length tokens.length 0 params).2.2,
      (trailingReport tokens).map Event.cerr, Producer.producer_eq tokens params,
      Producer.producerLoop_no_setDone _ _ _ _ _, ?_⟩
    intro x hx
    simp at hx
  · intro c hc
    exact List.eq_of_mem_replicate hc

theorem Pipeline.inv_progress (capacity consumer_count : Nat) (program : List Event)
    (s : Pipeline) (hcap : 1 ≤ capacity) (hn : 1 ≤ consumer_count)
    (h : Pipeline.Inv capacity consumer_count program s) :
    (s.Terminated ∨ ∃ t, (s.step t).isSome = true) ∧
    (s.Terminated → s.queue.m_queue = [] ∧ s.queue.m_done_flag = true) := by
  obtain ⟨hc, hlen, -, -, hflag⟩ := h
  have h0 : 0 < s.consumers.length := by omega
  rcases hflag with ⟨hf, ⟨pre, post, hprog, hpre, hpost⟩, hrun⟩ | ⟨hf, hno, hterm⟩
  · constructor
    · right
      cases pre with
      | cons e pre1 =>
        rw [List.cons_append] at hprog
        cases e with
        | push x =>
          cases hq : s.queue.push x with
          | some q => exact ⟨Thread.producer, by simp [Pipeline.step, hprog, hq]⟩
          | none =>
            have hfull := (ParameterQueue.push_eq_none_iff _ _).1 hq
            have hrun0 := hrun (s.consumers.get ⟨0, h0⟩) (List.get_mem _ _ _)
            have hget : s.consumers[0]? = some ConsumerState.running := by
              rw [List.getElem?_eq_getElem h0]
              exact congrArg some hrun0
            cases hm : s.queue.m_queue with
            | nil => rw [hm] at hfull; simp at hfull; omega
            | cons front rest =>
              exact ⟨Thread.consumer 0, by
                simp [Pipeline.step, hget, ParameterQueue.pop_cons _ _ _ _ hm]⟩
        | setDone => exact ⟨Thread.producer, by simp [Pipeline.step, hprog]⟩
        | cerr line => exact ⟨Thread.producer, by simp [Pipeline.step, hprog]⟩
      | nil =>
        rw [List.nil_append] at hprog
        exact ⟨Thread.producer, by simp [Pipeline.step, hprog]⟩
    · rintro ⟨hp, -⟩
      rw [hp] at hprog
      simp at hprog
  · constructor
    · by_cases hterm2 : s.Terminated
      · exact Or.inl hterm2
      · right
        cases hp : s.producer with
        | cons e rest =>
          cases e with
          | push x => exact absurd (by rw [hp]; exact List.mem_cons_self _ _) (hno x)
          | setDone => exact ⟨Thread.producer, by simp [Pipeline.step, hp]⟩
          | cerr line => exact ⟨Thread.producer, by simp [Pipeline.step, hp]⟩
        | nil =>
          have hex : ∃ c ∈ s.consumers, c ≠ ConsumerState.terminated := by
            by_contra hall
            push_neg at hall
            exact hterm2 ⟨hp, hall⟩
          obtain ⟨c, hcm, hcne⟩ := hex
          obtain ⟨i, hget⟩ := List.mem_iff_getElem?.1 hcm
          have hcr : c = ConsumerState.running := by
            cases c with
            | running => rfl
            | terminated => exact absurd rfl hcne
          subst hcr
          cases hm : s.queue.m_queue with
          | nil =>
            exact ⟨Thread.consumer i, by
              simp [Pipeline.step, hget, ParameterQueue.pop_nil_done _ _ hm hf]⟩
          | cons front rest =>
            exact ⟨Thread.consumer i, by
              simp [Pipeline.step, hget, ParameterQueue.pop_cons _ _ _ _ hm]⟩
    · rintro ⟨-, hall⟩
      refine ⟨hterm ⟨s.consumers.get ⟨0, h0⟩, List.get_mem _ _ _, hall _ (List.get_mem _ _ _)⟩, hf⟩

theorem runningCount_set (cs : List ConsumerState) (i : Nat)
    (h : cs[i]? = some ConsumerState.running) :
    runningCount (cs.set i ConsumerState.terminated) + 1 = runningCount cs := by
  induction cs generalizing i with
  | nil => simp at h
  | cons c cs ih =>
    cases i with
    | zero =>
      simp only [List.getElem?_cons_zero, Option.some.injEq] at h
      subst h
      rfl
    | succ i =>
      simp only [List.getElem?_cons_succ] at h
      have := ih i h
      cases c with
      | running => simp only [List.set_cons_succ, runningCount]; omega
      | terminated => simp only [List.set_cons_succ, runningCount]; exact this

theorem Pipeline.step_measure (s s1 : Pipeline) (t : Thread) (hs : s.step t = some s1) :
    s1.measure < s.measure := by
  unfold Pipeline.measure
  cases t with
  | producer =>
    simp only [Pipeline.step] at hs
    cases hp : s.producer with
    | nil => rw [hp] at hs; simp at hs
    | cons e rest =>
      rw [hp] at hs
      cases e with
      | push x =>
        simp only at hs
        cases hq : s.queue.push x with
        | none => rw [hq] at hs; simp at hs
        | some q =>
          rw [hq] at hs
          simp only [Option.some.injEq] at hs
          subst hs
          obtain ⟨-, rfl⟩ := (ParameterQueue.push_eq_some_iff _ _ _).1 hq
          simp only [List.length_cons, List.length_append, List.length_nil]
          omega
      | setDone =>
        simp only [Option.some.injEq] at hs
        subst hs
        simp only [List.length_cons, ParameterQueue.setDone]
        omega
      | cerr line =>
        simp only [Option.some.injEq] at hs
        subst hs
        simp only [List.length_cons]
        omega
  | consumer i =>
    simp only [Pipeline.step] at hs
    cases hc : s.consumers[i]? with
    | none => rw [hc] at hs; simp at hs
    | some c =>
      rw [hc] at hs
      cases c with
      | terminated => simp at hs
      | running =>
        simp only at hs
        cases hq : s.queue.m_queue with
        | nil =>
          cases hd : s.queue.m_done_flag with
          | false =>
            rw [ParameterQueue.pop_nil_open _ _ hq hd] at hs
            simp at hs
          | true =>
            rw [ParameterQueue.pop_nil_done _ _ hq hd] at hs
            simp only [Option.some.injEq] at hs
            subst hs
            have := runningCount_set s.consumers i hc
            simp only [hq]
            omega
        | cons front rest =>
          rw [ParameterQueue.pop_cons _ _ _ _ hq] at hs
          simp only [Option.some.injEq] at hs
          subst hs
          simp only [List.length_cons]
          omega

theorem getConsumerCount_pos (hardware_concurrency : Nat) :
    1 ≤ getConsumerCount hardware_concurrency := by
  unfold getConsumerCount
  omega

/-- C16. Orderly shutdown without deadlock. For every token sequence, consumer
count n >= 1 and capacity >= 1 (`main` uses both equal to `getConsumerCount()`,
which is at least 1), in the pipeline of one producer, n consumers and the
queue, with push / pop / setDone as atomic steps: in every state reached by a
schedule, either the producer and all consumers have terminated or some thread
has an enabled step; in every state where all have terminated the queue is
empty with completion signaled; and every step lowers a natural-number bound, so
no run takes infinitely many steps. -/
theorem pipeline_shuts_down_without_deadlock (tokens : List String) (params : EquationParams)
    (consumer_count capacity hardware_concurrency : Nat) (schedule : List Thread)
    (hn : 1 ≤ consumer_count) (hcap : 1 ≤ capacity) :
    (((Pipeline.init tokens params consumer_count capacity).run schedule).Terminated ∨
      ∃ t, (((Pipeline.init tokens params consumer_count capacity).run schedule).step t).isSome
        = true) ∧
    (((Pipeline.init tokens params consumer_count capacity).run schedule).Terminated →
      ((Pipeline.init tokens params consumer_count capacity).run schedule).queue.m_queue = [] ∧
      ((Pipeline.init tokens params consumer_count capacity).run schedule).queue.m_done_flag
        = true) ∧
    (∀ t s1, ((Pipeline.init tokens params consumer_count capacity).run schedule).step t
        = some s1 →
      s1.measure < ((Pipeline.init tokens params consumer_count capacity).run schedule).measure) ∧
    1 ≤ getConsumerCount hardware_concurrency := by
  have hinv := Pipeline.run_inv capacity consumer_count _ schedule _
    (Pipeline.init_inv tokens params consumer_count capacity)
  obtain ⟨h1, h2⟩ := Pipeline.inv_progress capacity consumer_count _ _ hcap hn hinv
  exact ⟨h1, h2, fun t s1 hs => Pipeline.step_measure _ s1 t hs,
    getConsumerCount_pos hardware_concurrency⟩

set_option maxRecDepth 100000 in
/-- Witness for C16: the tokens 1 -3 2 0 2 -4 7 with two consumers and capacity
2, under a schedule that runs to termination. -/
theorem pipeline_shuts_down_without_deadlock_witness :
    ((Pipeline.init ["1", "-3", "2", "0", "2", "-4", "7"] ⟨0, 0, 0⟩ 2 2).run
      [Thread.producer, Thread.producer, Thread.producer, Thread.consumer 0, Thread.consumer 1,
       Thread.producer, Thread.consumer 1, Thread.consumer 0]).queue.m_queue = [] ∧
    ((Pipeline.init ["1", "-3", "2", "0", "2", "-4", "7"] ⟨0, 0, 0⟩ 2 2).run
      [Thread.producer, Thread.producer, Thread.producer, Thread.consumer 0, Thread.consumer 1,
       Thread.producer, Thread.consumer 1, Thread.consumer 0]).queue.m_done_flag = true :=
  (pipeline_shuts_down_without_deadlock ["1", "-3", "2", "0", "2", "-4", "7"] ⟨0, 0, 0⟩ 2 2 8
    [Thread.producer, Thread.producer, Thread.producer, Thread.consumer 0, Thread.consumer 1,
     Thread.producer, Thread.consumer 1, Thread.consumer 0] (by decide) (by decide)).2.1
    ⟨rfl, fun c hc => by
      have hcs : ((Pipeline.init ["1", "-3", "2", "0", "2", "-4", "7"] ⟨0, 0, 0⟩ 2 2).run
          [Thread.producer, Thread.producer, Thread.producer, Thread.consumer 0,
           Thread.consumer 1, Thread.producer, Thread.consumer 1, Thread.consumer 0]).consumers
          = [ConsumerState.terminated, ConsumerState.terminated] := rfl
      rw [hcs] at hc
      simp only [List.mem_cons, List.mem_singleton, List.not_mem_nil, or_false, or_self] at hc
      exact hc⟩

/-! ## Pipeline: what a complete run delivers -/

theorem Producer.pushesOf_producer (tokens : List String) (params : EquationParams) :
    pushesOf (Producer.producer tokens tokens.length params) = convertedStrides tokens := by
  obtain ⟨h, -⟩ := Producer.producerLoop_strides tokens tokens.length tokens.length 0 params
    (by omega)
  simp only [Nat.mul_zero, Nat.sub_zero] at h
  rw [Producer.producer_eq, pushesOf_append, h, convertedStrides, List.range_eq_range']
  have : pushesOf (Event.setDone :: (trailingReport tokens).map Event.cerr) = [] := by
    simp [pushesOf, pushesOf_cerr]
  rw [this, List.append_nil]

theorem Pipeline.terminated_delivered (tokens : List String) (params : EquationParams)
    (consumer_count capacity : Nat) (schedule : List Thread) (hn : 1 ≤ consumer_count)
    (h : ((Pipeline.init tokens params consumer_count capacity).run schedule).Terminated) :
    ((Pipeline.init tokens params consumer_count capacity).run schedule).delivered.map Prod.snd
      = convertedStrides tokens ∧
    ((Pipeline.init tokens params consumer_count capacity).run schedule).cerr
      = (List.range (tokens.length / 3)).flatMap (strideErrorLines tokens)
          ++ trailingReport tokens := by
  obtain ⟨-, hlen, hcons, hcerr, hflag⟩ := Pipeline.run_inv capacity consumer_count _ schedule _
    (Pipeline.init_inv tokens params consumer_count capacity)
  obtain ⟨hp, hall⟩ := h
  rw [hp] at hcons hcerr
  have hq : ((Pipeline.init tokens params consumer_count capacity).run schedule).queue.m_queue
      = [] ∨ consumer_count = 0 := by
    rcases hflag with ⟨-, ⟨pre, post, hprog, -, -⟩, -⟩ | ⟨-, -, hterm⟩
    · rw [hp] at hprog
      simp at hprog
    · cases hcs : ((Pipeline.init tokens params consumer_count capacity).run schedule).consumers
        with
      | nil => right; rw [hcs] at hlen; exact hlen.symm
      | cons c cs =>
        left
        exact hterm ⟨c, by rw [hcs]; exact List.mem_cons_self _ _,
          hall c (by rw [hcs]; exact List.mem_cons_self _ _)⟩
  simp only [pushesOf, cerrOf, List.append_nil] at hcons hcerr
  rw [Producer.pushesOf_producer] at hcons
  rw [Producer.producer_cerr] at hcerr
  refine ⟨?_, hcerr⟩
  rcases hq with hq | hq
  · rw [hq, List.append_nil] at hcons
    exact hcons
  · omega

theorem consumerBody_eq_none_iff {D : Type} [DivisionRing D] (sqrt : D → D)
    (showDouble : D → String) (x : EquationParams) :
    consumerBody sqrt showDouble x = none ↔ x.a ≠ 0 ∧ wrap64 (2 * x.a) = 0 := by
  rcases x with ⟨a, b, c⟩
  by_cases ha : a = 0
  · subst ha
    rw [consumerBody_linear]
    simp
  · rw [consumerBody_quadratic sqrt showDouble a b c ha]
    simp only [Option.map_eq_none', extremumOf, solveLinearEquation, EquationParams.get, ne_eq,
      ha, not_false_eq_true, true_and]
    by_cases hw : wrap64 (2 * a) = 0
    · simp [hw]
    · simp [hw]

theorem wrap64_double_eq_zero_iff (a : Int) (h : inInt64 a) :
    (a ≠ 0 ∧ wrap64 (2 * a) = 0) ↔ a = -9223372036854775808 := by
  unfold inInt64 at h
  unfold wrap64
  constructor
  · rintro ⟨h0, hw⟩
    omega
  · intro ha
    subst ha
    decide

theorem length_filterMap_of_ne_none {α β : Type} (f : α → Option β) (l : List α)
    (h : ∀ x ∈ l, f x ≠ none) : (l.filterMap f).length = l.length := by
  induction l with
  | nil => rfl
  | cons x l ih =>
    have hx := h x (List.mem_cons_self _ _)
    cases hfx : f x with
    | none => exact absurd hfx hx
    | some y =>
      rw [List.filterMap_cons_some hfx, List.length_cons, List.length_cons,
        ih (fun z hz => h z (List.mem_cons_of_mem _ hz))]

set_option maxRecDepth 100000 in
/-- C15, the count of success lines, and where the code misses it. In every
state of the pipeline (n >= 1 consumers) in which the producer and all
consumers have terminated, the triples handed to the consumers are, in the
order of the pops, exactly the conversions of the full strides whose three
tokens convert; when the loop body raises no error on any of them, one line is
written for each. The loop body raises an error on a triple of 64-bit values
exactly when a = -2^63: for the tokens -9223372036854775808 0 0 the stride
converts and is handed to a consumer, whose body throws and writes no line.
For the tokens 1 -3 2 0 2 -4 7 with 2 consumers a complete run hands out
(1,-3,2) and (0,2,-4), the body writes a line for each, and the error stream
holds the one line reporting the trailing token 7. -/
theorem success_lines_of_complete_run (showDouble : ℝ → String) :
    (∀ (tokens : List String) (params : EquationParams) (consumer_count capacity : Nat)
        (schedule : List Thread), 1 ≤ consumer_count →
      ((Pipeline.init tokens params consumer_count capacity).run schedule).Terminated →
      ((Pipeline.init tokens params consumer_count capacity).run schedule).delivered.map Prod.snd
        = convertedStrides tokens ∧
      ((∀ x ∈ convertedStrides tokens, consumerBody Real.sqrt showDouble x ≠ none) →
        (((Pipeline.init tokens params consumer_count capacity).run schedule).delivered.filterMap
          (fun d => consumerBody Real.sqrt showDouble d.2)).length
          = (convertedStrides tokens).length)) ∧
    (∀ x : EquationParams, inInt64 x.a →
      (consumerBody Real.sqrt showDouble x = none ↔ x.a = -9223372036854775808)) ∧
    convertedStrides ["-9223372036854775808", "0", "0"] = [⟨-9223372036854775808, 0, 0⟩] ∧
    ((Pipeline.init ["-9223372036854775808", "0", "0"] ⟨0, 0, 0⟩ 1 1).run
      [Thread.producer, Thread.consumer 0]).delivered = [(0, ⟨-9223372036854775808, 0, 0⟩)] ∧
    consumerBody Real.sqrt showDouble ⟨-9223372036854775808, 0, 0⟩ = none ∧
    ((Pipeline.init ["1", "-3", "2", "0", "2", "-4", "7"] ⟨0, 0, 0⟩ 2 2).run
      [Thread.producer, Thread.producer, Thread.producer, Thread.consumer 0, Thread.consumer 1,
       Thread.producer, Thread.consumer 1, Thread.consumer 0]).delivered
      = [(0, ⟨1, -3, 2⟩), (1, ⟨0, 2, -4⟩)] ∧
    ((Pipeline.init ["1", "-3", "2", "0", "2", "-4", "7"] ⟨0, 0, 0⟩ 2 2).run
      [Thread.producer, Thread.producer, Thread.producer, Thread.consumer 0, Thread.consumer 1,
       Thread.producer, Thread.consumer 1, Thread.consumer 0]).cerr
      = ["(7) => Unprocessed parameters: parameter count must be a multiple of 3!"] ∧
    (consumerBody Real.sqrt showDouble ⟨1, -3, 2⟩).isSome = true ∧
    (consumerBody Real.sqrt showDouble ⟨0, 2, -4⟩).isSome = true := by
  have hnone : ∀ x : EquationParams, inInt64 x.a →
      (consumerBody Real.sqrt showDouble x = none ↔ x.a = -9223372036854775808) := by
    intro x hx
    rw [consumerBody_eq_none_iff, wrap64_double_eq_zero_iff x.a hx]
  refine ⟨?_, hnone, by decide, by decide, (hnone ⟨-9223372036854775808, 0, 0⟩ (by decide)).2 rfl,
    by decide, by decide, ?_, ?_⟩
  · intro tokens params consumer_count capacity schedule hn hterm
    obtain ⟨hd, -⟩ := Pipeline.terminated_delivered tokens params consumer_count capacity
      schedule hn hterm
    refine ⟨hd, fun hall => ?_⟩
    have hmap : ((Pipeline.init tokens params consumer_count capacity).run schedule).delivered.filterMap
        (fun d => consumerBody Real.sqrt showDouble d.2)
        = (((Pipeline.init tokens params consumer_count capacity).run schedule).delivered.map
            Prod.snd).filterMap (consumerBody Real.sqrt showDouble) := by
      rw [List.filterMap_map]
      rfl
    rw [hmap, hd, length_filterMap_of_ne_none _ _ hall]
  · rw [Option.isSome_iff_ne_none]
    intro h
    have := (hnone ⟨1, -3, 2⟩ (by decide)).1 h
    exact absurd this (by decide)
  · rw [Option.isSome_iff_ne_none]
    intro h
    have := (hnone ⟨0, 2, -4⟩ (by decide)).1 h
    exact absurd this (by decide)

/-! ## pop and setDone: the lost wakeup -/

theorem Fine.run_of_stuck (s : Fine) (hstuck : ∀ t, s.step t = none)
    (schedule : List FineThread) : s.run schedule = s := by
  induction schedule with
  | nil => rfl
  | cons t schedule ih =>
    show ((s.step t).getD s).run schedule = s
    rw [hstuck t]
    exact ih

/-- C17 (defect). On an empty queue with one consumer: the consumer takes the
mutex and evaluates the wait predicate of `pop` as false; `setDone` then runs
from start to return (it stores the flag and notifies without taking the mutex,
and no thread is waiting yet); the consumer then blocks on `m_not_empty`. In the
state reached `setDone` has returned, the flag is set and the queue is empty,
yet the consumer is blocked, no thread can take a step, and so the state never
changes: the consumer never returns false. As one atomic call, `pop` in that
queue state would return false. -/
theorem setDone_wakeup_can_be_lost :
    ((Fine.init 1 1).run lostWakeupSchedule).signaller = SetDonePc.returned ∧
    ((Fine.init 1 1).run lostWakeupSchedule).queue.m_done_flag = true ∧
    ((Fine.init 1 1).run lostWakeupSchedule).queue.m_queue = [] ∧
    ((Fine.init 1 1).run lostWakeupSchedule).poppers = [PopPc.waiting] ∧
    ((Fine.init 1 1).run (lostWakeupSchedule.take 2)).poppers = [PopPc.predicateFalse] ∧
    (∀ t, ((Fine.init 1 1).run lostWakeupSchedule).step t = none) ∧
    (∀ schedule, (((Fine.init 1 1).run lostWakeupSchedule).run schedule).poppers
      = [PopPc.waiting]) ∧
    ((Fine.init 1 1).run lostWakeupSchedule).queue.pop ⟨0, 0, 0⟩
      = some (false, ⟨0, 0, 0⟩, ((Fine.init 1 1).run lostWakeupSchedule).queue) := by
  have hstuck : ∀ t, ((Fine.init 1 1).run lostWakeupSchedule).step t = none := by
    intro t
    cases t with
    | signaller => rfl
    | popper i =>
      cases i with
      | zero => rfl
      | succ i => rfl
  refine ⟨rfl, rfl, rfl, rfl, rfl, hstuck, fun schedule => ?_, rfl⟩
  rw [Fine.run_of_stuck _ hstuck]
  rfl

end SE
